import Mathlib

/-!
Marching squares (`tema1_par.c`): shallow embedding and verified properties.

The program loads a PPM image, optionally rescales it to 2048 x 2048, samples
a binary occupancy grid on a stride of 8 pixels, and stamps one of 16 contour
tiles over every 8 x 8 block.  All of that work happens in `thread_function`,
which every worker thread runs on shared buffers.

Conventions of the embedding

* C `int` values that the program only ever uses as non-negative sizes and
  indices are `Nat`.  With dimensions bounded by the rescale constants no
  product in the program reaches `2^31`.
* A pixel buffer (`ppm_pixel *data`) is a function from the pixel index to the
  pixel stored there.  The image proper occupies the indices below `x * y`;
  the function says nothing about whether an index is within the allocation,
  so index safety is a separate property over the index expressions.
* `unsigned char` values are reduced modulo 256 where the C code narrows.
* Loops `for (i = lo; i < hi; i++)` are `for_loop lo hi body`.
-/

namespace MarchingSquares

/-! ## Constants (`#define`s of `tema1_par.c`) -/

/-- The number of contour tiles, `CONTOUR_CONFIG_COUNT`. -/
def CONTOUR_CONFIG_COUNT : Nat := 16

/-- The sampling stride, `STEP`. -/
def STEP : Nat := 8

/-- The intensity threshold, `SIGMA`. -/
def SIGMA : Nat := 200

/-- The rescale bound on `x`, `RESCALE_X`. -/
def RESCALE_X : Nat := 2048

/-- The rescale bound on `y`, `RESCALE_Y`. -/
def RESCALE_Y : Nat := 2048

/-! ## Data model -/

/-- Modelled from the spec: the pixel type `ppm_pixel` is declared in
`helpers.h`, which is not among the sources.  The spec describes a pixel as
an RGB triple of 8-bit channels; the code reads and writes the fields `red`,
`green` and `blue`. -/
structure ppm_pixel where
  red : Fin 256
  green : Fin 256
  blue : Fin 256
deriving DecidableEq, Repr

/-- Modelled from the spec: the image type `ppm_image` is declared in
`helpers.h`, which is not among the sources.  The code uses the fields `x`,
`y` and `data`, and addresses the pixel in row `i`, column `j` as
`data[i * y + j]` with `i < x` and `j < y` (see the rescale loop and
`update_image`): `x` rows of `y` pixels. -/
structure ppm_image where
  x : Nat
  y : Nat
  data : Nat → ppm_pixel

/-- The occupancy grid `unsigned char **grid`: `grid i j` is the byte stored
in `grid[i][j]`. -/
abbrev Grid := Nat → Nat → Nat

/-- The by-value fields of the C struct `thread_data` together with the
read-only tile table. -/
structure thread_data where
  p : Nat
  q : Nat
  step_x : Nat
  step_y : Nat
  thread_id : Nat
  num_threads : Nat
  contour_map : Nat → ppm_image

/-- The objects that the pointer fields of every worker's `thread_data` refer
to, shared by all workers: the source image (`image`), the buffer allocated
by `main` for the rescaled image (`scaled_image`) and the grid. -/
structure shared_memory where
  image : ppm_image
  scaled_image : ppm_image
  grid : Grid

/-! ## Loops and stores -/

/-- The loop `for (i = lo; i < hi; i++) s = body i s`. -/
def for_loop {σ : Type} (lo hi : Nat) (body : Nat → σ → σ) (s : σ) : σ :=
  (List.range' lo (hi - lo)).foldl (fun s i => body i s) s

/-- The store `image->data[idx] = v` (the three channels are copied one by
one in the source; together they overwrite the whole pixel). -/
def set_pixel (image : ppm_image) (idx : Nat) (v : ppm_pixel) : ppm_image :=
  { image with data := fun n => if n = idx then v else image.data n }

/-- The store `grid[i][j] = v`. -/
def set_cell (grid : Grid) (i j v : Nat) : Grid :=
  fun a b => if a = i ∧ b = j then v else grid a b

/-! ## `update_image` -/

/-- The function `update_image(image, contour, x, y)`: copies the pixels of
`contour` over the block of `image` whose first pixel is in row `x`, column
`y`. -/
def update_image (image contour : ppm_image) (x y : Nat) : ppm_image :=
  for_loop 0 contour.x (fun i image =>
    for_loop 0 contour.y (fun j image =>
      let contour_pixel_index := contour.x * i + j
      let image_pixel_index := (x + i) * image.y + y + j
      set_pixel image image_pixel_index (contour.data contour_pixel_index))
      image) image

/-! ## The phases of `thread_function` -/

/-- The first row of a worker in the grid and march loops:
`int start = thread_id * (double) p / num_threads`.  The product and the
quotient are computed in `double`; the operands are small integers (the
product stays far below `2^53`), so the product is exact, and truncating the
correctly rounded quotient of two such integers gives the integer quotient. -/
def grid_start (d : thread_data) : Nat :=
  d.thread_id * d.p / d.num_threads

/-- The row bound of a worker in the grid and march loops:
`int end = fmin((thread_id + 1) * (double) p / num_threads, p)`. -/
def grid_end (d : thread_data) : Nat :=
  min ((d.thread_id + 1) * d.p / d.num_threads) d.p

/-- The first row of a worker in the rescale loop (integer arithmetic):
`thread_id * scaled_image->x / num_threads`. -/
def rescale_start (d : thread_data) (scaled_x : Nat) : Nat :=
  d.thread_id * scaled_x / d.num_threads

/-- The row bound of a worker in the rescale loop:
`fmin((thread_id + 1) * scaled_image->x / num_threads, scaled_image->x)`. -/
def rescale_end (d : thread_data) (scaled_x : Nat) : Nat :=
  min ((d.thread_id + 1) * scaled_x / d.num_threads) scaled_x

/-- The rescale step of `thread_function`; the result is the image that
`data->scaled_image` refers to afterwards (the working canvas).

`sample_at image scaled_x scaled_y i j` stands for the pixel that
`sample_bicubic(image, u, v, sample)` stores in `sample` when
`u = (float)i / (float)(scaled_x - 1)` and `v = (float)j / (float)(scaled_y - 1)`;
`sample_bicubic` is declared in `helpers.h` and is a parameter here. -/
def rescale_step (sample_at : ppm_image → Nat → Nat → Nat → Nat → ppm_pixel)
    (d : thread_data) (image scaled_image : ppm_image) : ppm_image :=
  if image.x ≤ RESCALE_X ∧ image.y ≤ RESCALE_Y then
    image
  else
    let scaled_image := { scaled_image with x := RESCALE_X, y := RESCALE_Y }
    let start := rescale_start d scaled_image.x
    let end_ := rescale_end d scaled_image.x
    for_loop start end_ (fun i scaled_image =>
      for_loop 0 scaled_image.y (fun j scaled_image =>
        set_pixel scaled_image (i * scaled_image.y + j)
          (sample_at image scaled_image.x scaled_image.y i j))
        scaled_image) scaled_image

/-- The byte `unsigned char curr_color = (red + green + blue) / 3`: the sum
is computed in `int`, the quotient is narrowed to 8 bits. -/
def curr_color (curr_pixel : ppm_pixel) : Nat :=
  ((curr_pixel.red.val + curr_pixel.green.val + curr_pixel.blue.val) / 3) % 256

/-- The value stored in a grid cell for a sampled pixel:
`if (curr_color > SIGMA) 0 else 1`. -/
def threshold (curr_pixel : ppm_pixel) : Nat :=
  if curr_color curr_pixel > SIGMA then 0 else 1

/-- The interior fill (`// sample grid`): rows `start .. end - 1`, columns
`0 .. q - 1`. -/
def sample_grid (d : thread_data) (canvas : ppm_image) (grid : Grid) : Grid :=
  for_loop (grid_start d) (grid_end d) (fun i grid =>
    for_loop 0 d.q (fun j grid =>
      let curr_pixel := canvas.data (i * d.step_x * canvas.y + j * d.step_y)
      set_cell grid i j (threshold curr_pixel))
      grid) grid

/-- The corner store `data->grid[data->p][data->q] = 0`. -/
def set_corner (d : thread_data) (grid : Grid) : Grid :=
  set_cell grid d.p d.q 0

/-- The first boundary loop: the cells `grid[i][q]`, `i < p`.  The offset
within the row is `scaled_image->x - 1`, as in the source. -/
def boundary_column (d : thread_data) (canvas : ppm_image) (grid : Grid) : Grid :=
  for_loop 0 d.p (fun i grid =>
    let curr_pixel := canvas.data (i * d.step_x * canvas.y + canvas.x - 1)
    set_cell grid i d.q (threshold curr_pixel)) grid

/-- The second boundary loop: the cells `grid[p][j]`, `j < q`.  The
subtraction `x - 1` is that of C for every image with at least one row. -/
def boundary_row (d : thread_data) (canvas : ppm_image) (grid : Grid) : Grid :=
  for_loop 0 d.q (fun j grid =>
    let curr_pixel := canvas.data ((canvas.x - 1) * canvas.y + j * d.step_y)
    set_cell grid d.p j (threshold curr_pixel)) grid

/-- The boundary fill: the two boundary loops, in the order of the source. -/
def boundary_fill (d : thread_data) (canvas : ppm_image) (grid : Grid) : Grid :=
  boundary_row d canvas (boundary_column d canvas grid)

/-- The grid builder of one worker: interior fill, corner, boundary fill. -/
def build_grid (d : thread_data) (canvas : ppm_image) (grid : Grid) : Grid :=
  boundary_fill d canvas (set_corner d (sample_grid d canvas grid))

/-- The configuration index of cell `(i, j)`:
`unsigned char k = 8 * grid[i][j] + 4 * grid[i][j + 1] + 2 * grid[i + 1][j + 1] + 1 * grid[i + 1][j]`. -/
def config_index (grid : Grid) (i j : Nat) : Nat :=
  (8 * grid i j + 4 * grid i (j + 1) + 2 * grid (i + 1) (j + 1) + 1 * grid (i + 1) j) % 256

/-- The march loop (`// march`): for each cell of the worker's rows, stamp
the tile of its configuration index. -/
def march (d : thread_data) (grid : Grid) (canvas : ppm_image) : ppm_image :=
  for_loop (grid_start d) (grid_end d) (fun i canvas =>
    for_loop 0 d.q (fun j canvas =>
      let k := config_index grid i j
      update_image canvas (d.contour_map k) (i * d.step_x) (j * d.step_y))
      canvas) canvas

/-- The body of `thread_function`, run by one worker from start to end on
the shared memory.  When the source image is within the rescale bounds the
worker redirects its `scaled_image` pointer to the source image, so the march
writes into the source image; otherwise it writes into the rescale buffer. -/
def thread_function (sample_at : ppm_image → Nat → Nat → Nat → Nat → ppm_pixel)
    (d : thread_data) (m : shared_memory) : shared_memory :=
  let canvas := rescale_step sample_at d m.image m.scaled_image
  let grid := build_grid d canvas m.grid
  let canvas := march d grid canvas
  if m.image.x ≤ RESCALE_X ∧ m.image.y ≤ RESCALE_Y then
    { image := canvas, scaled_image := m.scaled_image, grid := grid }
  else
    { image := m.image, scaled_image := canvas, grid := grid }

/-! ## `main` -/

/-- The argument `data[i]` that `main` passes to worker `i`: `p` and `q` are
computed from the image returned by `read_ppm`, both steps are `STEP`. -/
def main_thread_data (image : ppm_image) (contour_map : Nat → ppm_image)
    (num_threads i : Nat) : thread_data :=
  { p := image.x / STEP
    q := image.y / STEP
    step_x := STEP
    step_y := STEP
    thread_id := i
    num_threads := num_threads
    contour_map := contour_map }

/-- The shared memory when the workers are created: the image read from the
input file, the rescale buffer of `RESCALE_X * RESCALE_Y` pixels with its
dimensions set, and the grid as returned by `malloc` (`buffer` and `grid` are
the bytes those allocations happen to hold). -/
def main_memory (image : ppm_image) (buffer : Nat → ppm_pixel) (grid : Grid) :
    shared_memory :=
  { image := image
    scaled_image := { x := RESCALE_X, y := RESCALE_Y, data := buffer }
    grid := grid }

/-- One schedule of the workers that `main` creates: worker 0 runs to its
end, then worker 1, and so on.  The program has no barrier wait, so a worker
may finish before the next one starts. -/
def run_workers (sample_at : ppm_image → Nat → Nat → Nat → Nat → ppm_pixel)
    (image : ppm_image) (contour_map : Nat → ppm_image) (num_threads : Nat)
    (m : shared_memory) : shared_memory :=
  for_loop 0 num_threads (fun i m =>
    thread_function sample_at (main_thread_data image contour_map num_threads i) m) m

/-- The image that `main` writes out, `data[0].scaled_image`: worker 0 made
that pointer refer to the source image when no rescale was needed, and left
it on the rescale buffer otherwise. -/
def output_image (m : shared_memory) : ppm_image :=
  if m.image.x ≤ RESCALE_X ∧ m.image.y ≤ RESCALE_Y then m.image else m.scaled_image

/-! ## Tile loading and the control flow of `main` -/

/-- The function `init_contour_map`: allocates the table of
`CONTOUR_CONFIG_COUNT` tile pointers and stores in entry `i` the image that
`read_ppm` returns for `./contours/i.ppm`.  The result is `none` when the
process exits inside the function (the allocation fails, or a `read_ppm` call
does not return).

Modelled from the spec for `read_ppm` only, which is defined outside the
sources: `read_tile i` is `some` image when the call for tile `i` returns
that image and `none` when `read_ppm` terminates the process, as the spec
says it does for a missing or unreadable file.  `map` is what the fresh
allocation holds. -/
def init_contour_map (malloc_ok : Bool) (read_tile : Nat → Option ppm_image)
    (map : Nat → ppm_image) : Option (Nat → ppm_image) :=
  if malloc_ok then
    for_loop 0 CONTOUR_CONFIG_COUNT (fun i map =>
      match map with
      | none => none
      | some map =>
        match read_tile i with
        | none => none
        | some tile => some (fun k => if k = i then tile else map k))
      (some map)
  else
    none

/-- The messages that `main` and `init_contour_map` print on standard error;
`read_failed` stands for whatever `read_ppm` prints before it exits. -/
inductive diagnostic where
  | usage
  | unable_to_allocate
  | error_creating_thread
  | error_joining_thread
  | read_failed
deriving DecidableEq, Repr

/-- What the run of `main` depends on besides its arguments.

* `read_input`, `read_tile i`: the results of `read_ppm(argv[1])` and of
  `read_ppm` for tile `i` (`none` when `read_ppm` ends the process);
* `data_ok`, `scaled_image_ok`, `contour_map_ok`: whether the `malloc` of the
  `thread_data` table (for a thread count of 0 or more, see `main`), of the
  `ppm_image` struct and of the tile table return a non-null pointer; `grid_ok`: whether all the `malloc` calls for the grid
  do (the `malloc` of the rescale pixel buffer is not checked by `main`);
* `create_fails i`, `join_fails i`: whether `pthread_create` and
  `pthread_join` return non-zero for worker `i`;
* `buffer`, `grid`, `map`: the bytes that the fresh allocations hold;
* `sample_at`: the sampler (see `rescale_step`). -/
structure environment where
  read_input : Option ppm_image
  read_tile : Nat → Option ppm_image
  data_ok : Bool
  scaled_image_ok : Bool
  grid_ok : Bool
  contour_map_ok : Bool
  create_fails : Nat → Bool
  join_fails : Nat → Bool
  buffer : Nat → ppm_pixel
  grid : Grid
  map : Nat → ppm_image
  sample_at : ppm_image → Nat → Nat → Nat → Nat → ppm_pixel

/-- What a run of `main` did: its exit code, the message on standard error
if any, whether `read_ppm` was called for the input file, how many workers
were created, whether `write_ppm` was called, and the image passed to it.
`written` is `none` when `write_ppm` was not called, and also when it was
called without any worker having been set up, in which case the pointer
`data[0].scaled_image` passed to it was never initialised. -/
structure main_outcome where
  exit_code : Nat
  stderr : Option diagnostic
  image_read : Bool
  threads_created : Nat
  write_ppm_called : Bool
  written : Option ppm_image

/-- The outcome of a run that ends in `exit(1)` after the input was read. -/
def fatal (message : diagnostic) (threads_created : Nat) : main_outcome :=
  { exit_code := 1
    stderr := some message
    image_read := true
    threads_created := threads_created
    write_ppm_called := false
    written := none }

/-- The function `main`.  `argc` is the argument count and `num_threads` the
value of `atoi(argv[3])`; the loops `for (i = 0; i < num_threads; i++)` run
`num_threads.toNat` times.  The workers are run in the schedule of
`run_workers`.

The request `malloc(num_threads * sizeof(thread_data))`: for a negative count
the product, converted to the unsigned 64-bit `size_t`, is within
`2^31 * sizeof(thread_data)` of `2^64`, more than any allocation can provide,
so `malloc` returns a null pointer whatever the environment; for a count of 0
or more the result is the `data_ok` of the environment. -/
def main (env : environment) (argc : Nat) (num_threads : Int) : main_outcome :=
  if argc < 4 then
    { exit_code := 1
      stderr := some diagnostic.usage
      image_read := false
      threads_created := 0
      write_ppm_called := false
      written := none }
  else
    match env.read_input with
    | none => fatal diagnostic.read_failed 0
    | some image =>
      if num_threads < 0 ∨ env.data_ok = false then fatal diagnostic.unable_to_allocate 0
      else if !env.scaled_image_ok then fatal diagnostic.unable_to_allocate 0
      else if !env.grid_ok then fatal diagnostic.unable_to_allocate 0
      else
        match init_contour_map env.contour_map_ok env.read_tile env.map with
        | none =>
          fatal (if env.contour_map_ok then diagnostic.read_failed
            else diagnostic.unable_to_allocate) 0
        | some contour_map =>
          match (List.range num_threads.toNat).find? env.create_fails with
          | some i => fatal diagnostic.error_creating_thread i
          | none =>
            match (List.range num_threads.toNat).find? env.join_fails with
            | some _ => fatal diagnostic.error_joining_thread num_threads.toNat
            | none =>
              { exit_code := 0
                stderr := none
                image_read := true
                threads_created := num_threads.toNat
                write_ppm_called := true
                written :=
                  if num_threads.toNat = 0 then none
                  else some (output_image (run_workers env.sample_at image contour_map
                    num_threads.toNat (main_memory image env.buffer env.grid))) }

/-! ## The grid with unwritten cells tracked -/

/-- The grid with every cell either not yet written (`none`) or holding the
byte stored in it. -/
abbrev tracked_grid := Nat → Nat → Option Nat

/-- The store `grid[i][j] = v` on a tracked grid. -/
def set_cell_tracked (grid : tracked_grid) (i j v : Nat) : tracked_grid :=
  fun a b => if a = i ∧ b = j then some v else grid a b

/-- The grid builder of one worker on a tracked grid: the same loops and
stores as `build_grid` (interior fill, corner, boundary column, boundary
row). -/
def build_grid_tracked (d : thread_data) (canvas : ppm_image) (grid : tracked_grid) :
    tracked_grid :=
  let grid := for_loop (grid_start d) (grid_end d) (fun i grid =>
    for_loop 0 d.q (fun j grid =>
      let curr_pixel := canvas.data (i * d.step_x * canvas.y + j * d.step_y)
      set_cell_tracked grid i j (threshold curr_pixel))
      grid) grid
  let grid := set_cell_tracked grid d.p d.q 0
  let grid := for_loop 0 d.p (fun i grid =>
    let curr_pixel := canvas.data (i * d.step_x * canvas.y + canvas.x - 1)
    set_cell_tracked grid i d.q (threshold curr_pixel)) grid
  for_loop 0 d.q (fun j grid =>
    let curr_pixel := canvas.data ((canvas.x - 1) * canvas.y + j * d.step_y)
    set_cell_tracked grid d.p j (threshold curr_pixel)) grid

/-! ## The memory accesses of the phases -/

/-- The values that the counter of `for (i = lo; i < hi; i++)` takes. -/
def loop_values (lo hi : Nat) : List Nat :=
  List.range' lo (hi - lo)

/-- The grid cells read by the march loop of one worker, in order: for each
cell `(i, j)` of its rows, `grid[i][j]`, `grid[i][j + 1]`,
`grid[i + 1][j + 1]`, `grid[i + 1][j]`. -/
def march_grid_reads (d : thread_data) : List (Nat × Nat) :=
  (loop_values (grid_start d) (grid_end d)).flatMap (fun i =>
    (loop_values 0 d.q).flatMap (fun j =>
      [(i, j), (i, j + 1), (i + 1, j + 1), (i + 1, j)]))

/-- The grid cells stored by the grid builder of one worker. -/
def build_grid_writes (d : thread_data) : List (Nat × Nat) :=
  (loop_values (grid_start d) (grid_end d)).flatMap (fun i =>
      (loop_values 0 d.q).map (fun j => (i, j)))
    ++ [(d.p, d.q)]
    ++ (loop_values 0 d.p).map (fun i => (i, d.q))
    ++ (loop_values 0 d.q).map (fun j => (d.p, j))

/-- The canvas indices read by the interior fill of one worker. -/
def sample_grid_reads (d : thread_data) (canvas : ppm_image) : List Nat :=
  (loop_values (grid_start d) (grid_end d)).flatMap (fun i =>
    (loop_values 0 d.q).map (fun j => i * d.step_x * canvas.y + j * d.step_y))

/-- The canvas indices read by the first boundary loop. -/
def boundary_column_reads (d : thread_data) (canvas : ppm_image) : List Nat :=
  (loop_values 0 d.p).map (fun i => i * d.step_x * canvas.y + canvas.x - 1)

/-- The canvas indices read by the second boundary loop. -/
def boundary_row_reads (d : thread_data) (canvas : ppm_image) : List Nat :=
  (loop_values 0 d.q).map (fun j => (canvas.x - 1) * canvas.y + j * d.step_y)

/-- The canvas indices read by the grid builder of one worker. -/
def build_grid_reads (d : thread_data) (canvas : ppm_image) : List Nat :=
  sample_grid_reads d canvas ++ boundary_column_reads d canvas ++ boundary_row_reads d canvas

/-- The image indices `image_pixel_index` stored by
`update_image(image, contour, x, y)`. -/
def update_image_writes (image contour : ppm_image) (x y : Nat) : List Nat :=
  (loop_values 0 contour.x).flatMap (fun i =>
    (loop_values 0 contour.y).map (fun j => (x + i) * image.y + y + j))

/-- The tile indices `contour_pixel_index` read by `update_image`. -/
def update_image_reads (contour : ppm_image) : List Nat :=
  (loop_values 0 contour.x).flatMap (fun i =>
    (loop_values 0 contour.y).map (fun j => contour.x * i + j))

/-- The canvas indices stored by the march loop of one worker. -/
def march_writes (d : thread_data) (grid : Grid) (canvas : ppm_image) : List Nat :=
  (loop_values (grid_start d) (grid_end d)).flatMap (fun i =>
    (loop_values 0 d.q).flatMap (fun j =>
      update_image_writes canvas (d.contour_map (config_index grid i j))
        (i * d.step_x) (j * d.step_y)))

/-- The tile indices read by the march loop of one worker. -/
def march_tile_reads (d : thread_data) (grid : Grid) : List Nat :=
  (loop_values (grid_start d) (grid_end d)).flatMap (fun i =>
    (loop_values 0 d.q).flatMap (fun j =>
      update_image_reads (d.contour_map (config_index grid i j))))

/-- The mean of the three channels of a pixel as a rational number, in the
words of the spec ("mean of (R,G,B)"); the code computes `curr_color`
instead. -/
def channel_mean (curr_pixel : ppm_pixel) : ℚ :=
  ((curr_pixel.red.val : ℚ) + (curr_pixel.green.val : ℚ) + (curr_pixel.blue.val : ℚ)) / 3

/-! ## The rescale ranges in the words of the spec -/

/-- The size `ceil(outW / numThreads)` of a rescale range as the spec states
it. -/
def spec_range_size (out_w num_threads : Nat) : Nat :=
  (out_w + num_threads - 1) / num_threads

/-- The first row of worker `id` as the spec states it:
`id * ceil(outW / numThreads)`. -/
def spec_rescale_start (out_w num_threads id : Nat) : Nat :=
  id * spec_range_size out_w num_threads

/-- The row bound of worker `id` as the spec states it:
`min((id + 1) * ceil(outW / numThreads), outW)`. -/
def spec_rescale_end (out_w num_threads id : Nat) : Nat :=
  min ((id + 1) * spec_range_size out_w num_threads) out_w

/-! ## Concrete inputs used in the evaluations below -/

/-- A black pixel. -/
def black_pixel : ppm_pixel := ⟨0, 0, 0⟩

/-- A white pixel. -/
def white_pixel : ppm_pixel := ⟨255, 255, 255⟩

/-- A tile table of 8 x 8 tiles; every pixel of tile `k` has all three
channels equal to `k`, so the tiles are pairwise different. -/
def gray_tiles (k : Nat) : ppm_image :=
  { x := 8, y := 8, data := fun _ => ⟨Fin.ofNat k, Fin.ofNat k, Fin.ofNat k⟩ }

/-- A sampler for runs in which no rescale happens. -/
def sample_black : ppm_image → Nat → Nat → Nat → Nat → ppm_pixel :=
  fun _ _ _ _ _ => black_pixel

/-- A 16 x 16 image, all black. -/
def black_16 : ppm_image := { x := 16, y := 16, data := fun _ => black_pixel }

/-- The shared memory for `black_16` when the fresh allocations hold zero
bytes. -/
def black_16_memory : shared_memory :=
  main_memory black_16 (fun _ => black_pixel) (fun _ _ => 0)

/-- An image of 8 rows of 16 pixels: white, except that the last pixel of the
first row (index 15) is black. -/
def wide_8_16 : ppm_image :=
  { x := 8, y := 16, data := fun n => if n = 15 then black_pixel else white_pixel }

/-- A source image of 4096 x 4096 pixels, beyond both rescale bounds. -/
def large_4096 : ppm_image := { x := 4096, y := 4096, data := fun _ => white_pixel }

/-- A 16 x 16 image, all white. -/
def white_16 : ppm_image := { x := 16, y := 16, data := fun _ => white_pixel }

/-- A tile of 4 x 4 black pixels, not of the size of a grid cell. -/
def small_tile : ppm_image := { x := 4, y := 4, data := fun _ => black_pixel }

/-- An environment in which every call succeeds: the input file holds
`image`, tile file `k` holds `tiles k`, and the fresh allocations hold zero
bytes. -/
def good_environment (image : ppm_image) (tiles : Nat → ppm_image) : environment :=
  { read_input := some image
    read_tile := fun k => some (tiles k)
    data_ok := true
    scaled_image_ok := true
    grid_ok := true
    contour_map_ok := true
    create_fails := fun _ => false
    join_fails := fun _ => false
    buffer := fun _ => black_pixel
    grid := fun _ _ => 0
    map := fun _ => small_tile
    sample_at := sample_black }

/-- An image of 20 rows of 20 pixels, all white: `p = q = 2`, with strips of
4 rows and 4 columns outside the blocks. -/
def white_20 : ppm_image := { x := 20, y := 20, data := fun _ => white_pixel }

/-- A pixel with channel sum 601: its mean is above 200, its truncated mean
is 200. -/
def pixel_601 : ppm_pixel := ⟨201, 200, 200⟩

/-- A 16 x 16 image all of whose pixels are `pixel_601`. -/
def gray_601_16 : ppm_image := { x := 16, y := 16, data := fun _ => pixel_601 }

/-! ## Loop lemmas -/

theorem for_loop_empty {σ : Type} (lo hi : Nat) (body : Nat → σ → σ) (s : σ)
    (h : hi ≤ lo) : for_loop lo hi body s = s := by
  simp [for_loop, Nat.sub_eq_zero_of_le h]

theorem for_loop_succ {σ : Type} (lo hi : Nat) (body : Nat → σ → σ) (s : σ)
    (h : lo ≤ hi) : for_loop lo (hi + 1) body s = body hi (for_loop lo hi body s) := by
  have e : hi + 1 - lo = (hi - lo) + 1 := by omega
  have e2 : lo + (hi - lo) = hi := by omega
  simp [for_loop, e, List.range'_concat, List.foldl_append, e2]

/-- Pointwise description of a loop whose iterations write disjoint (or
agreeing) sets of locations.  `read` observes a location of the state, `F i`
is the set of locations written by iteration `i`, `W i` the values written
there. -/
theorem for_loop_spec {σ L V : Type} (read : σ → L → V) (Inv : σ → Prop)
    (ok : L → Prop) (body : Nat → σ → σ) (F : Nat → L → Prop) (W : Nat → L → V)
    (lo : Nat) (s : σ) (hs : Inv s) :
    ∀ hi : Nat,
      (∀ i s, lo ≤ i → i < hi → Inv s → Inv (body i s)) →
      (∀ i s l, lo ≤ i → i < hi → Inv s → ok l → ¬ F i l →
        read (body i s) l = read s l) →
      (∀ i s l, lo ≤ i → i < hi → Inv s → ok l → F i l →
        read (body i s) l = W i l) →
      (∀ i i2 l, lo ≤ i → i < hi → lo ≤ i2 → i2 < hi → ok l → F i l → F i2 l →
        W i l = W i2 l) →
      Inv (for_loop lo hi body s) ∧
      ∀ l, ok l →
        (∀ i, lo ≤ i → i < hi → F i l → read (for_loop lo hi body s) l = W i l) ∧
        ((∀ i, lo ≤ i → i < hi → ¬ F i l) → read (for_loop lo hi body s) l = read s l) := by
  intro hi
  induction hi with
  | zero =>
    intro _ _ _ _
    rw [for_loop_empty lo 0 body s (Nat.zero_le _)]
    refine ⟨hs, fun l _ => ⟨fun i _ h => absurd h (Nat.not_lt_zero _), fun _ => rfl⟩⟩
  | succ n ih =>
    intro hinv hframe hval hagree
    by_cases hlo : lo ≤ n
    · have ih2 := ih
        (fun i s h1 h2 => hinv i s h1 (Nat.lt_succ_of_lt h2))
        (fun i s l h1 h2 => hframe i s l h1 (Nat.lt_succ_of_lt h2))
        (fun i s l h1 h2 => hval i s l h1 (Nat.lt_succ_of_lt h2))
        (fun i i2 l h1 h2 h3 h4 =>
          hagree i i2 l h1 (Nat.lt_succ_of_lt h2) h3 (Nat.lt_succ_of_lt h4))
      rw [for_loop_succ lo n body s hlo]
      obtain ⟨hI, hP⟩ := ih2
      refine ⟨hinv n _ hlo (Nat.lt_succ_self n) hI, fun l hl => ⟨?_, ?_⟩⟩
      · intro i hi1 hi2 hF
        by_cases hn : F n l
        · rw [hval n _ l hlo (Nat.lt_succ_self n) hI hl hn]
          exact hagree n i l hlo (Nat.lt_succ_self n) hi1 hi2 hl hn hF
        · rw [hframe n _ l hlo (Nat.lt_succ_self n) hI hl hn]
          have hne : i ≠ n := fun e => hn (e ▸ hF)
          exact (hP l hl).1 i hi1 (by omega) hF
      · intro hnone
        rw [hframe n _ l hlo (Nat.lt_succ_self n) hI hl (hnone n hlo (Nat.lt_succ_self n))]
        exact (hP l hl).2 (fun i h1 h2 => hnone i h1 (Nat.lt_succ_of_lt h2))
    · rw [for_loop_empty lo (n + 1) body s (by omega)]
      refine ⟨hs, fun l _ => ⟨fun i h1 h2 _ => by omega, fun _ => rfl⟩⟩


/-! ## The grid builder, cell by cell -/

theorem set_cell_apply (grid : Grid) (i j v a b : Nat) :
    set_cell grid i j v a b = if a = i ∧ b = j then v else grid a b := rfl

theorem threshold_le_one (px : ppm_pixel) : threshold px ≤ 1 := by
  unfold threshold
  split <;> omega

/-- One row of the interior fill. -/
theorem sample_row_spec (canvas : ppm_image) (sx sy q i : Nat) (grid : Grid) (a b : Nat) :
    for_loop 0 q (fun j grid =>
        set_cell grid i j (threshold (canvas.data (i * sx * canvas.y + j * sy)))) grid a b
      = if a = i ∧ b < q then threshold (canvas.data (i * sx * canvas.y + b * sy))
        else grid a b := by
  have h := for_loop_spec (fun (g : Grid) (l : Nat × Nat) => g l.1 l.2) (fun _ => True)
    (fun _ => True)
    (fun j grid => set_cell grid i j (threshold (canvas.data (i * sx * canvas.y + j * sy))))
    (fun j l => l.1 = i ∧ l.2 = j)
    (fun j _ => threshold (canvas.data (i * sx * canvas.y + j * sy)))
    0 grid trivial q
    (fun _ _ _ _ _ => trivial)
    (fun j s l _ _ _ _ hF => by simp only [set_cell_apply, if_neg hF])
    (fun j s l _ _ _ _ hF => by simp only [set_cell_apply, if_pos hF])
    (fun j j2 l _ _ _ _ _ h1 h2 => by rw [← h1.2, ← h2.2])
  have hl := h.2 (a, b) trivial
  by_cases hc : a = i ∧ b < q
  · rw [if_pos hc]
    exact hl.1 b (Nat.zero_le _) hc.2 ⟨hc.1, rfl⟩
  · rw [if_neg hc]
    refine hl.2 (fun j _ hj hF => hc ?_)
    obtain ⟨e1, e2⟩ := hF
    dsimp only at e1 e2
    exact ⟨e1, e2 ▸ hj⟩

/-- The interior fill of one worker: the cells of its rows are set from the
sampled pixels, every other cell is left as it was. -/
theorem sample_grid_spec (d : thread_data) (canvas : ppm_image) (grid : Grid) (a b : Nat) :
    sample_grid d canvas grid a b
      = if (grid_start d ≤ a ∧ a < grid_end d) ∧ b < d.q then
          threshold (canvas.data (a * d.step_x * canvas.y + b * d.step_y))
        else grid a b := by
  have h := for_loop_spec (fun (g : Grid) (l : Nat × Nat) => g l.1 l.2) (fun _ => True)
    (fun _ => True)
    (fun i grid => for_loop 0 d.q (fun j grid =>
      set_cell grid i j (threshold (canvas.data (i * d.step_x * canvas.y + j * d.step_y))))
      grid)
    (fun i l => l.1 = i ∧ l.2 < d.q)
    (fun i l => threshold (canvas.data (i * d.step_x * canvas.y + l.2 * d.step_y)))
    (grid_start d) grid trivial (grid_end d)
    (fun _ _ _ _ _ => trivial)
    (fun i s l _ _ _ _ hF => by simp only [sample_row_spec, if_neg hF])
    (fun i s l _ _ _ _ hF => by simp only [sample_row_spec, if_pos hF])
    (fun i i2 l _ _ _ _ _ h1 h2 => by rw [← h1.1, ← h2.1])
  have hl := h.2 (a, b) trivial
  unfold sample_grid
  by_cases hc : (grid_start d ≤ a ∧ a < grid_end d) ∧ b < d.q
  · rw [if_pos hc]
    exact hl.1 a hc.1.1 hc.1.2 ⟨rfl, hc.2⟩
  · rw [if_neg hc]
    refine hl.2 (fun i h1 h2 hF => hc ?_)
    obtain ⟨e1, e2⟩ := hF
    dsimp only at e1 e2
    subst e1
    exact ⟨⟨h1, h2⟩, e2⟩

/-- The first boundary loop, cell by cell. -/
theorem boundary_column_spec (d : thread_data) (canvas : ppm_image) (grid : Grid) (a b : Nat) :
    boundary_column d canvas grid a b
      = if a < d.p ∧ b = d.q then
          threshold (canvas.data (a * d.step_x * canvas.y + canvas.x - 1))
        else grid a b := by
  have h := for_loop_spec (fun (g : Grid) (l : Nat × Nat) => g l.1 l.2) (fun _ => True)
    (fun _ => True)
    (fun i grid => set_cell grid i d.q
      (threshold (canvas.data (i * d.step_x * canvas.y + canvas.x - 1))))
    (fun i l => l.1 = i ∧ l.2 = d.q)
    (fun i _ => threshold (canvas.data (i * d.step_x * canvas.y + canvas.x - 1)))
    0 grid trivial d.p
    (fun _ _ _ _ _ => trivial)
    (fun i s l _ _ _ _ hF => by simp only [set_cell_apply, if_neg hF])
    (fun i s l _ _ _ _ hF => by simp only [set_cell_apply, if_pos hF])
    (fun i i2 l _ _ _ _ _ h1 h2 => by rw [← h1.1, ← h2.1])
  have hl := h.2 (a, b) trivial
  unfold boundary_column
  by_cases hc : a < d.p ∧ b = d.q
  · rw [if_pos hc]
    exact hl.1 a (Nat.zero_le _) hc.1 ⟨rfl, hc.2⟩
  · rw [if_neg hc]
    refine hl.2 (fun i _ h2 hF => hc ?_)
    obtain ⟨e1, e2⟩ := hF
    dsimp only at e1 e2
    subst e1
    exact ⟨h2, e2⟩

/-- The second boundary loop, cell by cell. -/
theorem boundary_row_spec (d : thread_data) (canvas : ppm_image) (grid : Grid) (a b : Nat) :
    boundary_row d canvas grid a b
      = if a = d.p ∧ b < d.q then
          threshold (canvas.data ((canvas.x - 1) * canvas.y + b * d.step_y))
        else grid a b := by
  have h := for_loop_spec (fun (g : Grid) (l : Nat × Nat) => g l.1 l.2) (fun _ => True)
    (fun _ => True)
    (fun j grid => set_cell grid d.p j
      (threshold (canvas.data ((canvas.x - 1) * canvas.y + j * d.step_y))))
    (fun j l => l.1 = d.p ∧ l.2 = j)
    (fun j _ => threshold (canvas.data ((canvas.x - 1) * canvas.y + j * d.step_y)))
    0 grid trivial d.q
    (fun _ _ _ _ _ => trivial)
    (fun j s l _ _ _ _ hF => by simp only [set_cell_apply, if_neg hF])
    (fun j s l _ _ _ _ hF => by simp only [set_cell_apply, if_pos hF])
    (fun j j2 l _ _ _ _ _ h1 h2 => by rw [← h1.2, ← h2.2])
  have hl := h.2 (a, b) trivial
  unfold boundary_row
  by_cases hc : a = d.p ∧ b < d.q
  · rw [if_pos hc]
    exact hl.1 b (Nat.zero_le _) hc.2 ⟨hc.1, rfl⟩
  · rw [if_neg hc]
    refine hl.2 (fun j _ h2 hF => hc ?_)
    obtain ⟨e1, e2⟩ := hF
    dsimp only at e1 e2
    subst e2
    exact ⟨e1, h2⟩

/-- The grid builder of one worker, cell by cell. -/
theorem build_grid_spec (d : thread_data) (canvas : ppm_image) (grid : Grid) (a b : Nat) :
    build_grid d canvas grid a b
      = if a = d.p ∧ b < d.q then
          threshold (canvas.data ((canvas.x - 1) * canvas.y + b * d.step_y))
        else if a < d.p ∧ b = d.q then
          threshold (canvas.data (a * d.step_x * canvas.y + canvas.x - 1))
        else if a = d.p ∧ b = d.q then 0
        else if (grid_start d ≤ a ∧ a < grid_end d) ∧ b < d.q then
          threshold (canvas.data (a * d.step_x * canvas.y + b * d.step_y))
        else grid a b := by
  simp only [build_grid, boundary_fill, set_corner, boundary_row_spec, boundary_column_spec,
    set_cell_apply, sample_grid_spec]

theorem grid_start_single (d : thread_data) (h0 : d.thread_id = 0) :
    grid_start d = 0 := by
  simp [grid_start, h0]

theorem grid_end_single (d : thread_data) (h0 : d.thread_id = 0) (h1 : d.num_threads = 1) :
    grid_end d = d.p := by
  simp [grid_end, h0, h1]

theorem grid_end_le (d : thread_data) : grid_end d ≤ d.p := by
  unfold grid_end
  exact Nat.min_le_right _ _


/-! ## `update_image`, pixel by pixel -/

theorem set_pixel_data (image : ppm_image) (idx : Nat) (v : ppm_pixel) (n : Nat) :
    (set_pixel image idx v).data n = if n = idx then v else image.data n := rfl

theorem set_pixel_x (image : ppm_image) (idx : Nat) (v : ppm_pixel) :
    (set_pixel image idx v).x = image.x := rfl

theorem set_pixel_y (image : ppm_image) (idx : Nat) (v : ppm_pixel) :
    (set_pixel image idx v).y = image.y := rfl

/-- A pixel index determines its row and column once the column is within
the row length. -/
theorem index_inj (Y r c r2 c2 : Nat) (hc : c < Y) (hc2 : c2 < Y)
    (h : r * Y + c = r2 * Y + c2) : r = r2 ∧ c = c2 := by
  have h1 : (r * Y + c) / Y = r := by
    rw [Nat.mul_comm, Nat.mul_add_div (by omega), Nat.div_eq_of_lt hc, Nat.add_zero]
  have h2 : (r2 * Y + c2) / Y = r2 := by
    rw [Nat.mul_comm, Nat.mul_add_div (by omega), Nat.div_eq_of_lt hc2, Nat.add_zero]
  have hr : r = r2 := by rw [← h1, ← h2, h]
  subst hr
  exact ⟨rfl, by omega⟩

/-- One row of `update_image`: the inner loop for tile row `i`. -/
theorem update_row_spec (t : ppm_image) (x0 y0 i X Y : Nat) (image : ppm_image)
    (hx : image.x = X) (hy : image.y = Y) (hfit : y0 + t.y ≤ Y) :
    let res := for_loop 0 t.y (fun j image =>
      set_pixel image ((x0 + i) * image.y + y0 + j) (t.data (t.x * i + j))) image
    (res.x = X ∧ res.y = Y) ∧
    ∀ r c, c < Y →
      res.data (r * Y + c)
        = if r = x0 + i ∧ (y0 ≤ c ∧ c < y0 + t.y) then t.data (t.x * i + (c - y0))
          else image.data (r * Y + c) := by
  intro res
  have h := for_loop_spec (fun (img : ppm_image) (l : Nat × Nat) => img.data (l.1 * Y + l.2))
    (fun img => img.x = X ∧ img.y = Y) (fun l => l.2 < Y)
    (fun j image => set_pixel image ((x0 + i) * image.y + y0 + j) (t.data (t.x * i + j)))
    (fun j l => l.1 = x0 + i ∧ l.2 = y0 + j)
    (fun j _ => t.data (t.x * i + j))
    0 image ⟨hx, hy⟩ t.y
    (fun _ _ _ _ hI => hI)
    (fun j s l _ hj hI hl hF => by
      simp only [set_pixel_data, hI.2]
      rw [if_neg]
      intro e
      rw [Nat.add_assoc] at e
      exact hF (index_inj Y _ _ _ _ hl (by omega) e))
    (fun j s l _ hj hI hl hF => by
      simp only [set_pixel_data, hI.2]
      rw [if_pos]
      rw [hF.1, hF.2, Nat.add_assoc])
    (fun j j2 l _ _ _ _ _ h1 h2 => by
      have e : j = j2 := by have := h1.2; have := h2.2; omega
      rw [e])
  refine ⟨h.1, fun r c hc => ?_⟩
  have hl := h.2 (r, c) hc
  by_cases hcase : r = x0 + i ∧ (y0 ≤ c ∧ c < y0 + t.y)
  · rw [if_pos hcase]
    have := hl.1 (c - y0) (Nat.zero_le _) (by omega) ⟨hcase.1, by dsimp only; omega⟩
    exact this
  · rw [if_neg hcase]
    refine hl.2 (fun j _ hj hF => hcase ?_)
    obtain ⟨e1, e2⟩ := hF
    dsimp only at e1 e2
    exact ⟨e1, by omega, by omega⟩

/-- The function `update_image` overwrites the block of `contour.x` rows and
`contour.y` columns at `(x0, y0)` and nothing else, provided the block fits in
the row length of the image. -/
theorem update_image_spec (t : ppm_image) (x0 y0 X Y : Nat) (image : ppm_image)
    (hx : image.x = X) (hy : image.y = Y) (hfit : y0 + t.y ≤ Y) :
    ((update_image image t x0 y0).x = X ∧ (update_image image t x0 y0).y = Y) ∧
    ∀ r c, c < Y →
      (update_image image t x0 y0).data (r * Y + c)
        = if (x0 ≤ r ∧ r < x0 + t.x) ∧ (y0 ≤ c ∧ c < y0 + t.y) then
            t.data (t.x * (r - x0) + (c - y0))
          else image.data (r * Y + c) := by
  have h := for_loop_spec (fun (img : ppm_image) (l : Nat × Nat) => img.data (l.1 * Y + l.2))
    (fun img => img.x = X ∧ img.y = Y) (fun l => l.2 < Y)
    (fun i image => for_loop 0 t.y (fun j image =>
      set_pixel image ((x0 + i) * image.y + y0 + j) (t.data (t.x * i + j))) image)
    (fun i l => l.1 = x0 + i ∧ (y0 ≤ l.2 ∧ l.2 < y0 + t.y))
    (fun i l => t.data (t.x * i + (l.2 - y0)))
    0 image ⟨hx, hy⟩ t.x
    (fun i s _ _ hI => (update_row_spec t x0 y0 i X Y s hI.1 hI.2 hfit).1)
    (fun i s l _ _ hI hl hF => by
      have := (update_row_spec t x0 y0 i X Y s hI.1 hI.2 hfit).2 l.1 l.2 hl
      dsimp only at this ⊢
      rw [this, if_neg hF])
    (fun i s l _ _ hI hl hF => by
      have := (update_row_spec t x0 y0 i X Y s hI.1 hI.2 hfit).2 l.1 l.2 hl
      dsimp only at this ⊢
      rw [this, if_pos hF])
    (fun i i2 l _ _ _ _ _ h1 h2 => by
      have e : i = i2 := by have := h1.1; have := h2.1; omega
      rw [e])
  refine ⟨h.1, fun r c hc => ?_⟩
  have hl := h.2 (r, c) hc
  by_cases hcase : (x0 ≤ r ∧ r < x0 + t.x) ∧ (y0 ≤ c ∧ c < y0 + t.y)
  · rw [if_pos hcase]
    exact hl.1 (r - x0) (Nat.zero_le _) (by omega) ⟨by dsimp only; omega, hcase.2⟩
  · rw [if_neg hcase]
    refine hl.2 (fun i _ hi hF => hcase ?_)
    obtain ⟨e1, e2⟩ := hF
    dsimp only at e1 e2
    exact ⟨⟨by omega, by omega⟩, e2⟩


/-! ## The march loop, pixel by pixel -/

theorem block_unique (s j j2 c : Nat) (h1 : j * s ≤ c) (h2 : c < j * s + s)
    (h3 : j2 * s ≤ c) (h4 : c < j2 * s + s) : j = j2 := by
  have e1 : c / s = j := Nat.div_eq_of_lt_le h1 (by rw [Nat.succ_mul]; exact h2)
  have e2 : c / s = j2 := Nat.div_eq_of_lt_le h3 (by rw [Nat.succ_mul]; exact h4)
  rw [← e1, ← e2]

theorem block_of_lt (s q c : Nat) (h : c < q * s) :
    c / s < q ∧ c / s * s ≤ c ∧ c < c / s * s + s := by
  have hs : 0 < s := by
    rcases Nat.eq_zero_or_pos s with h0 | h0
    · subst h0; simp at h
    · exact h0
  refine ⟨(Nat.div_lt_iff_lt_mul hs).2 h, Nat.div_mul_le_self c s, ?_⟩
  have := Nat.div_add_mod c s
  have := Nat.mod_lt c hs
  rw [Nat.mul_comm]
  omega

/-- One row of cells of the march loop: the inner loop for grid row `i`. -/
theorem march_row_spec (d : thread_data) (grid : Grid) (i X Y : Nat) (canvas : ppm_image)
    (hx : canvas.x = X) (hy : canvas.y = Y) (hq : d.q * d.step_y ≤ Y)
    (htile : ∀ j, j < d.q →
      (d.contour_map (config_index grid i j)).x = d.step_x ∧
      (d.contour_map (config_index grid i j)).y = d.step_y) :
    let res := for_loop 0 d.q (fun j canvas =>
      update_image canvas (d.contour_map (config_index grid i j))
        (i * d.step_x) (j * d.step_y)) canvas
    (res.x = X ∧ res.y = Y) ∧
    ∀ r c, c < Y →
      res.data (r * Y + c)
        = if (i * d.step_x ≤ r ∧ r < i * d.step_x + d.step_x) ∧ c < d.q * d.step_y then
            (d.contour_map (config_index grid i (c / d.step_y))).data
              (d.step_x * (r - i * d.step_x) + (c - c / d.step_y * d.step_y))
          else canvas.data (r * Y + c) := by
  intro res
  have hfit : ∀ j, j < d.q → j * d.step_y + d.step_y ≤ Y := by
    intro j hj
    have : (j + 1) * d.step_y ≤ d.q * d.step_y := Nat.mul_le_mul_right _ hj
    rw [Nat.succ_mul] at this
    omega
  have h := for_loop_spec (fun (img : ppm_image) (l : Nat × Nat) => img.data (l.1 * Y + l.2))
    (fun img => img.x = X ∧ img.y = Y) (fun l => l.2 < Y)
    (fun j canvas => update_image canvas (d.contour_map (config_index grid i j))
        (i * d.step_x) (j * d.step_y))
    (fun j l => (i * d.step_x ≤ l.1 ∧ l.1 < i * d.step_x + d.step_x) ∧
      (j * d.step_y ≤ l.2 ∧ l.2 < j * d.step_y + d.step_y))
    (fun j l => (d.contour_map (config_index grid i j)).data
      (d.step_x * (l.1 - i * d.step_x) + (l.2 - j * d.step_y)))
    0 canvas ⟨hx, hy⟩ d.q
    (fun j s _ hj hI => (update_image_spec _ _ _ X Y s hI.1 hI.2
      (by rw [(htile j hj).2]; exact hfit j hj)).1)
    (fun j s l _ hj hI hl hF => by
      have := (update_image_spec (d.contour_map (config_index grid i j))
        (i * d.step_x) (j * d.step_y) X Y s hI.1 hI.2
        (by rw [(htile j hj).2]; exact hfit j hj)).2 l.1 l.2 hl
      rw [(htile j hj).1, (htile j hj).2] at this
      dsimp only at this ⊢
      rw [this, if_neg hF])
    (fun j s l _ hj hI hl hF => by
      have := (update_image_spec (d.contour_map (config_index grid i j))
        (i * d.step_x) (j * d.step_y) X Y s hI.1 hI.2
        (by rw [(htile j hj).2]; exact hfit j hj)).2 l.1 l.2 hl
      rw [(htile j hj).1, (htile j hj).2] at this
      dsimp only at this ⊢
      rw [this, if_pos hF])
    (fun j j2 l _ _ _ _ _ h1 h2 => by
      have e : j = j2 := block_unique d.step_y j j2 l.2 h1.2.1 h1.2.2 h2.2.1 h2.2.2
      rw [e])
  refine ⟨h.1, fun r c hc => ?_⟩
  have hl := h.2 (r, c) hc
  by_cases hcase : (i * d.step_x ≤ r ∧ r < i * d.step_x + d.step_x) ∧ c < d.q * d.step_y
  · rw [if_pos hcase]
    obtain ⟨b1, b2, b3⟩ := block_of_lt d.step_y d.q c hcase.2
    exact hl.1 (c / d.step_y) (Nat.zero_le _) b1 ⟨hcase.1, b2, b3⟩
  · rw [if_neg hcase]
    refine hl.2 (fun j _ hj hF => hcase ?_)
    obtain ⟨e1, e2, e3⟩ := hF
    dsimp only at e1 e2 e3
    have := hfit j hj
    have : (j + 1) * d.step_y ≤ d.q * d.step_y := Nat.mul_le_mul_right _ hj
    rw [Nat.succ_mul] at this
    exact ⟨e1, by omega⟩

/-- The march loop of one worker: every block of the worker's rows holds the
tile of its configuration index, every other pixel is left as it was, and the
dimensions of the canvas are unchanged. -/
theorem march_spec (d : thread_data) (grid : Grid) (canvas : ppm_image)
    (hq : d.q * d.step_y ≤ canvas.y)
    (htile : ∀ i j, grid_start d ≤ i → i < grid_end d → j < d.q →
      (d.contour_map (config_index grid i j)).x = d.step_x ∧
      (d.contour_map (config_index grid i j)).y = d.step_y) :
    ((march d grid canvas).x = canvas.x ∧ (march d grid canvas).y = canvas.y) ∧
    ∀ r c, c < canvas.y →
      (∀ i, grid_start d ≤ i → i < grid_end d →
        i * d.step_x ≤ r → r < i * d.step_x + d.step_x → c < d.q * d.step_y →
        (march d grid canvas).data (r * canvas.y + c)
          = (d.contour_map (config_index grid i (c / d.step_y))).data
              (d.step_x * (r - i * d.step_x) + (c - c / d.step_y * d.step_y))) ∧
      ((∀ i, grid_start d ≤ i → i < grid_end d →
          ¬ ((i * d.step_x ≤ r ∧ r < i * d.step_x + d.step_x) ∧ c < d.q * d.step_y)) →
        (march d grid canvas).data (r * canvas.y + c) = canvas.data (r * canvas.y + c)) := by
  have h := for_loop_spec
    (fun (img : ppm_image) (l : Nat × Nat) => img.data (l.1 * canvas.y + l.2))
    (fun img => img.x = canvas.x ∧ img.y = canvas.y) (fun l => l.2 < canvas.y)
    (fun i canvas => for_loop 0 d.q (fun j canvas =>
      update_image canvas (d.contour_map (config_index grid i j))
        (i * d.step_x) (j * d.step_y)) canvas)
    (fun i l => (i * d.step_x ≤ l.1 ∧ l.1 < i * d.step_x + d.step_x) ∧ l.2 < d.q * d.step_y)
    (fun i l => (d.contour_map (config_index grid i (l.2 / d.step_y))).data
      (d.step_x * (l.1 - i * d.step_x) + (l.2 - l.2 / d.step_y * d.step_y)))
    (grid_start d) canvas ⟨rfl, rfl⟩ (grid_end d)
    (fun i s h1 h2 hI => (march_row_spec d grid i canvas.x canvas.y s hI.1 hI.2 hq
      (fun j hj => htile i j h1 h2 hj)).1)
    (fun i s l h1 h2 hI hl hF => by
      have := (march_row_spec d grid i canvas.x canvas.y s hI.1 hI.2 hq
        (fun j hj => htile i j h1 h2 hj)).2 l.1 l.2 hl
      dsimp only at this ⊢
      rw [this, if_neg hF])
    (fun i s l h1 h2 hI hl hF => by
      have := (march_row_spec d grid i canvas.x canvas.y s hI.1 hI.2 hq
        (fun j hj => htile i j h1 h2 hj)).2 l.1 l.2 hl
      dsimp only at this ⊢
      rw [this, if_pos hF])
    (fun i i2 l _ _ _ _ _ h1 h2 => by
      have e : i = i2 := block_unique d.step_x i i2 l.1 h1.1.1 h1.1.2 h2.1.1 h2.1.2
      rw [e])
  refine ⟨h.1, fun r c hc => ?_⟩
  have hl := h.2 (r, c) hc
  refine ⟨fun i h1 h2 h3 h4 h5 => hl.1 i h1 h2 ⟨⟨h3, h4⟩, h5⟩, fun hnone => ?_⟩
  exact hl.2 hnone


/-! ## Auxiliary facts for the claims -/

theorem for_loop_invariant {σ : Type} (Inv : σ → Prop) (body : Nat → σ → σ)
    (hbody : ∀ i s, Inv s → Inv (body i s)) (lo hi : Nat) (s : σ) (hs : Inv s) :
    Inv (for_loop lo hi body s) := by
  unfold for_loop
  generalize List.range' lo (hi - lo) = l
  induction l generalizing s with
  | nil => exact hs
  | cons a l ih => exact ih (body a s) (hbody a s hs)

/-- When the source image exceeds a rescale bound, the working canvas has the
dimensions `RESCALE_X` and `RESCALE_Y`. -/
theorem rescale_step_dims (sample_at : ppm_image → Nat → Nat → Nat → Nat → ppm_pixel)
    (d : thread_data) (image scaled_image : ppm_image)
    (h : ¬ (image.x ≤ RESCALE_X ∧ image.y ≤ RESCALE_Y)) :
    (rescale_step sample_at d image scaled_image).x = RESCALE_X ∧
    (rescale_step sample_at d image scaled_image).y = RESCALE_Y := by
  unfold rescale_step
  rw [if_neg h]
  refine for_loop_invariant (fun (s : ppm_image) => s.x = RESCALE_X ∧ s.y = RESCALE_Y) _ ?_ _ _ _ ⟨rfl, rfl⟩
  intro i s hs
  refine for_loop_invariant (fun (s : ppm_image) => s.x = RESCALE_X ∧ s.y = RESCALE_Y) _
    ?_ _ _ _ hs
  intro j s2 hs2
  exact hs2

theorem curr_color_eq (px : ppm_pixel) :
    curr_color px = (px.red.val + px.green.val + px.blue.val) / 3 := by
  unfold curr_color
  have := px.red.isLt
  have := px.green.isLt
  have := px.blue.isLt
  omega

theorem threshold_eq_one_iff (px : ppm_pixel) :
    threshold px = 1 ↔ (px.red.val + px.green.val + px.blue.val) / 3 ≤ SIGMA := by
  unfold threshold
  rw [curr_color_eq]
  split <;> omega

theorem threshold_eq_zero_iff (px : ppm_pixel) :
    threshold px = 0 ↔ SIGMA < (px.red.val + px.green.val + px.blue.val) / 3 := by
  unfold threshold
  rw [curr_color_eq]
  split <;> omega

/-- With one worker, every cell of the `(p + 1) x (q + 1)` grid is written by
the grid builder with a thresholded sample, whatever the grid held before. -/
theorem build_grid_single (d : thread_data) (canvas : ppm_image) (grid : Grid)
    (h0 : d.thread_id = 0) (h1 : d.num_threads = 1) (a b : Nat)
    (ha : a ≤ d.p) (hb : b ≤ d.q) :
    build_grid d canvas grid a b
      = if a = d.p ∧ b < d.q then
          threshold (canvas.data ((canvas.x - 1) * canvas.y + b * d.step_y))
        else if a < d.p ∧ b = d.q then
          threshold (canvas.data (a * d.step_x * canvas.y + canvas.x - 1))
        else if a = d.p ∧ b = d.q then 0
        else threshold (canvas.data (a * d.step_x * canvas.y + b * d.step_y)) := by
  rw [build_grid_spec, grid_start_single d h0, grid_end_single d h0 h1]
  by_cases c1 : a = d.p ∧ b < d.q
  · simp only [if_pos c1]
  · by_cases c2 : a < d.p ∧ b = d.q
    · simp only [if_neg c1, if_pos c2]
    · by_cases c3 : a = d.p ∧ b = d.q
      · simp only [if_neg c1, if_neg c2, if_pos c3]
      · have c4 : (0 ≤ a ∧ a < d.p) ∧ b < d.q := by omega
        simp only [if_neg c1, if_neg c2, if_neg c3, if_pos c4]

theorem build_grid_single_le_one (d : thread_data) (canvas : ppm_image) (grid : Grid)
    (h0 : d.thread_id = 0) (h1 : d.num_threads = 1) (a b : Nat)
    (ha : a ≤ d.p) (hb : b ≤ d.q) : build_grid d canvas grid a b ≤ 1 := by
  rw [build_grid_single d canvas grid h0 h1 a b ha hb]
  split
  · exact threshold_le_one _
  · split
    · exact threshold_le_one _
    · split
      · exact Nat.zero_le _
      · exact threshold_le_one _

theorem config_index_of_bits (grid : Grid) (i j : Nat)
    (h1 : grid i j ≤ 1) (h2 : grid i (j + 1) ≤ 1) (h3 : grid (i + 1) (j + 1) ≤ 1)
    (h4 : grid (i + 1) j ≤ 1) :
    config_index grid i j
      = 8 * grid i j + 4 * grid i (j + 1) + 2 * grid (i + 1) (j + 1) + 1 * grid (i + 1) j ∧
    config_index grid i j < 16 := by
  unfold config_index
  omega


/-- Every row below `p` lies in the row range of some worker, for every
thread count `T >= 1`. -/
theorem row_owner_exists (d : thread_data) (hT : 1 ≤ d.num_threads)
    (i : Nat) (hi : i < d.p) :
    ∃ id, id < d.num_threads ∧
      grid_start { d with thread_id := id } ≤ i ∧ i < grid_end { d with thread_id := id } := by
  have hTpos : 0 < d.num_threads := hT
  have hppos : 0 < d.p := by omega
  have hN1 : 0 < (i + 1) * d.num_threads := Nat.mul_pos (Nat.succ_pos _) hTpos
  have hN2 : (i + 1) * d.num_threads ≤ d.num_threads * d.p := by
    rw [Nat.mul_comm d.num_threads d.p]
    exact Nat.mul_le_mul_right _ hi
  generalize hN : (i + 1) * d.num_threads = N at hN1 hN2
  have hw1 : (N - 1) / d.p * d.p ≤ N - 1 := Nat.div_mul_le_self _ _
  have hw2 : N - 1 < (N - 1) / d.p * d.p + d.p := by
    have h1 := Nat.div_add_mod (N - 1) d.p
    have h2 := Nat.mod_lt (N - 1) hppos
    rw [Nat.mul_comm] at h1
    omega
  refine ⟨(N - 1) / d.p, ?_, ?_, ?_⟩
  · rw [Nat.div_lt_iff_lt_mul hppos]
    omega
  · show (N - 1) / d.p * d.p / d.num_threads ≤ i
    rw [← Nat.lt_succ_iff, Nat.div_lt_iff_lt_mul hTpos, hN]
    omega
  · show i < min (((N - 1) / d.p + 1) * d.p / d.num_threads) d.p
    rw [lt_min_iff]
    refine ⟨?_, hi⟩
    rw [Nat.lt_iff_add_one_le, Nat.le_div_iff_mul_le hTpos, hN, Nat.succ_mul]
    omega

/-! ## The claims -/

/-- C1: for a source image within the rescale bounds, 16 tiles of 8 x 8
pixels and one worker (`num_threads = 1`, `thread_id = 0`, arguments as set
up by `main`), the image written out holds, in the 8 x 8 block of every cell
`(i, j)` with `i < x / 8` and `j < y / 8`, the tile `contour_map[k]` pixel for
pixel, where `k = 8 * grid[i][j] + 4 * grid[i][j+1] + 2 * grid[i+1][j+1] +
grid[i+1][j]` and `grid` is the grid built from the image before any tile was
stamped: the pixel in row `i * 8 + a`, column `j * 8 + b` is pixel
`8 * a + b` of the tile. -/
theorem C1_block_equals_tile
    (sample_at : ppm_image → Nat → Nat → Nat → Nat → ppm_pixel)
    (image : ppm_image) (contour_map : Nat → ppm_image)
    (buffer : Nat → ppm_pixel) (grid0 : Grid)
    (hx : image.x ≤ RESCALE_X) (hy : image.y ≤ RESCALE_Y)
    (htiles : ∀ k, k < CONTOUR_CONFIG_COUNT → (contour_map k).x = 8 ∧ (contour_map k).y = 8)
    (i j a b : Nat) (hi : i < image.x / 8) (hj : j < image.y / 8)
    (ha : a < 8) (hb : b < 8) :
    (output_image (thread_function sample_at (main_thread_data image contour_map 1 0)
        (main_memory image buffer grid0))).data ((i * 8 + a) * image.y + (j * 8 + b))
      = (contour_map
          (8 * build_grid (main_thread_data image contour_map 1 0) image grid0 i j
            + 4 * build_grid (main_thread_data image contour_map 1 0) image grid0 i (j + 1)
            + 2 * build_grid (main_thread_data image contour_map 1 0) image grid0 (i + 1) (j + 1)
            + 1 * build_grid (main_thread_data image contour_map 1 0) image grid0 (i + 1) j)).data
          (8 * a + b) := by
  -- the worker's arguments and the grid it builds
  generalize hd : main_thread_data image contour_map 1 0 = d
  have hp : d.p = image.x / 8 := by rw [← hd]; rfl
  have hqq : d.q = image.y / 8 := by rw [← hd]; rfl
  have hsx : d.step_x = 8 := by rw [← hd]; rfl
  have hsy : d.step_y = 8 := by rw [← hd]; rfl
  have h0 : d.thread_id = 0 := by rw [← hd]; rfl
  have h1 : d.num_threads = 1 := by rw [← hd]; rfl
  have hcm : d.contour_map = contour_map := by rw [← hd]; rfl
  generalize hg : build_grid d image grid0 = grid
  have hbit : ∀ a b, a ≤ d.p → b ≤ d.q → grid a b ≤ 1 := by
    intro a b h2 h3
    rw [← hg]
    exact build_grid_single_le_one d image grid0 h0 h1 a b h2 h3
  have hidx : ∀ i j, i < d.p → j < d.q →
      config_index grid i j
        = 8 * grid i j + 4 * grid i (j + 1) + 2 * grid (i + 1) (j + 1) + 1 * grid (i + 1) j ∧
      config_index grid i j < 16 := by
    intro i j h2 h3
    exact config_index_of_bits grid i j (hbit _ _ (by omega) (by omega))
      (hbit _ _ (by omega) (by omega)) (hbit _ _ (by omega) (by omega))
      (hbit _ _ (by omega) (by omega))
  -- no rescale: the canvas is the source image, and it is the image written out
  have hcond : image.x ≤ RESCALE_X ∧ image.y ≤ RESCALE_Y := ⟨hx, hy⟩
  have hq : d.q * d.step_y ≤ image.y := by
    rw [hqq, hsy]
    exact Nat.div_mul_le_self _ _
  have htile : ∀ i j, grid_start d ≤ i → i < grid_end d → j < d.q →
      (d.contour_map (config_index grid i j)).x = d.step_x ∧
      (d.contour_map (config_index grid i j)).y = d.step_y := by
    intro i j _ h3 h4
    rw [grid_end_single d h0 h1] at h3
    rw [hcm, hsx, hsy]
    exact htiles _ (hidx i j h3 h4).2
  have hm := march_spec d grid image hq htile
  have hout : output_image (thread_function sample_at d (main_memory image buffer grid0))
      = march d grid image := by
    simp only [thread_function, main_memory, rescale_step, if_pos hcond, hg, output_image]
    rw [if_pos]
    rw [hm.1.1, hm.1.2]
    exact hcond
  rw [hout]
  have hc : j * 8 + b < image.y := by
    have := Nat.div_mul_le_self image.y 8
    omega
  have hcell := (hm.2 (i * 8 + a) (j * 8 + b) hc).1 i
    (by rw [grid_start_single d h0]; exact Nat.zero_le _)
    (by rw [grid_end_single d h0 h1, hp]; exact hi)
    (by rw [hsx]; omega) (by rw [hsx]; omega) (by rw [hsy, hqq]; omega)
  rw [hcell, hsx, hsy, hcm]
  have e1 : (j * 8 + b) / 8 = j := by omega
  have e2 : i * 8 + a - i * 8 = a := by omega
  have e3 : j * 8 + b - j * 8 = b := by omega
  rw [e1, e2, e3, (hidx i j (by rw [hp]; exact hi) (by rw [hqq]; exact hj)).1]

/-- Witness of C1: the all-black 16 x 16 image with the gray tile table. -/
theorem C1_block_equals_tile_witness :
    (output_image (thread_function sample_black (main_thread_data black_16 gray_tiles 1 0)
        (main_memory black_16 (fun _ => black_pixel) (fun _ _ => 0)))).data
        ((1 * 8 + 2) * black_16.y + (1 * 8 + 3))
      = (gray_tiles
          (8 * build_grid (main_thread_data black_16 gray_tiles 1 0) black_16 (fun _ _ => 0) 1 1
            + 4 * build_grid (main_thread_data black_16 gray_tiles 1 0) black_16 (fun _ _ => 0) 1 (1 + 1)
            + 2 * build_grid (main_thread_data black_16 gray_tiles 1 0) black_16 (fun _ _ => 0) (1 + 1) (1 + 1)
            + 1 * build_grid (main_thread_data black_16 gray_tiles 1 0) black_16 (fun _ _ => 0) (1 + 1) 1)).data
          (8 * 2 + 3) :=
  C1_block_equals_tile sample_black black_16 gray_tiles (fun _ => black_pixel) (fun _ _ => 0)
    (by decide) (by decide) (fun k _ => ⟨rfl, rfl⟩) 1 1 2 3 (by decide) (by decide)
    (by decide) (by decide)


/-- C2 (the claim fails as stated): on the 16 x 16 image whose pixels all
have the channels `(201, 200, 200)`, the interior fill of the one worker
stores 1 in `grid[0][0]` although the mean of the channels of the sampled
pixel, `601 / 3`, is above the threshold 200. -/
theorem C2_mean_above_threshold_gives_one :
    sample_grid (main_thread_data gray_601_16 gray_tiles 1 0) gray_601_16 (fun _ _ => 0) 0 0
      = 1 ∧
    (SIGMA : ℚ) < channel_mean (gray_601_16.data (0 * 8 * gray_601_16.y + 0 * 8)) := by
  refine ⟨by decide, ?_⟩
  have h1 : ((201 : Fin 256).val : ℚ) = 201 := by norm_cast
  have h2 : ((200 : Fin 256).val : ℚ) = 200 := by norm_cast
  simp only [channel_mean, gray_601_16, pixel_601, SIGMA, h1, h2]
  norm_num

/-- C2 (amended): for every canvas, every thread count `T >= 1` and every
interior cell `(i, j)` with `i < p` and `j < q`, row `i` lies in the row range
of some worker, and after the interior fill of any worker whose row range
contains `i` the cell `grid[i][j]` is 1 exactly when the truncated integer
mean `(red + green + blue) / 3`, as the code computes it, of the canvas pixel
in row `i * step_x`, column `j * step_y` is at most `SIGMA = 200`, and 0
exactly when that truncated mean is above `SIGMA`. -/
theorem C2_interior_cell (d : thread_data) (canvas : ppm_image) (grid : Grid)
    (hT : 1 ≤ d.num_threads) (i j : Nat) (hi : i < d.p) (hj : j < d.q) :
    (∃ id, id < d.num_threads ∧
      grid_start { d with thread_id := id } ≤ i ∧ i < grid_end { d with thread_id := id }) ∧
    ∀ id, grid_start { d with thread_id := id } ≤ i → i < grid_end { d with thread_id := id } →
      (sample_grid { d with thread_id := id } canvas grid i j = 1 ↔
        ((canvas.data (i * d.step_x * canvas.y + j * d.step_y)).red.val
          + (canvas.data (i * d.step_x * canvas.y + j * d.step_y)).green.val
          + (canvas.data (i * d.step_x * canvas.y + j * d.step_y)).blue.val) / 3 ≤ SIGMA) ∧
      (sample_grid { d with thread_id := id } canvas grid i j = 0 ↔
        SIGMA < ((canvas.data (i * d.step_x * canvas.y + j * d.step_y)).red.val
          + (canvas.data (i * d.step_x * canvas.y + j * d.step_y)).green.val
          + (canvas.data (i * d.step_x * canvas.y + j * d.step_y)).blue.val) / 3) := by
  refine ⟨row_owner_exists d hT i hi, ?_⟩
  intro id h1 h2
  have hc : (grid_start { d with thread_id := id } ≤ i ∧
      i < grid_end { d with thread_id := id }) ∧ j < ({ d with thread_id := id } : thread_data).q :=
    ⟨⟨h1, h2⟩, hj⟩
  rw [sample_grid_spec, if_pos hc]
  exact ⟨threshold_eq_one_iff _, threshold_eq_zero_iff _⟩

/-- Witness of C2 (amended): cell `(1, 1)` of the all-black 16 x 16 image with
two workers; row 1 belongs to worker 1. -/
theorem C2_interior_cell_witness :
    (sample_grid { main_thread_data black_16 gray_tiles 2 0 with thread_id := 1 } black_16
        (fun _ _ => 0) 1 1 = 1 ↔
      ((black_16.data (1 * 8 * black_16.y + 1 * 8)).red.val
        + (black_16.data (1 * 8 * black_16.y + 1 * 8)).green.val
        + (black_16.data (1 * 8 * black_16.y + 1 * 8)).blue.val) / 3 ≤ SIGMA) ∧
    (sample_grid { main_thread_data black_16 gray_tiles 2 0 with thread_id := 1 } black_16
        (fun _ _ => 0) 1 1 = 0 ↔
      SIGMA < ((black_16.data (1 * 8 * black_16.y + 1 * 8)).red.val
        + (black_16.data (1 * 8 * black_16.y + 1 * 8)).green.val
        + (black_16.data (1 * 8 * black_16.y + 1 * 8)).blue.val) / 3) :=
  (C2_interior_cell (main_thread_data black_16 gray_tiles 2 0) black_16 (fun _ _ => 0)
    (by decide) 1 1 (by decide) (by decide)).2 1 (by decide) (by decide)

/-- C3 (evaluation at a failing input): on the image `wide_8_16` of 8 rows of
16 pixels, whose last pixel of row 0 (index 15) is black, the boundary-column
cell `grid[0][q]` (`p = 1`, `q = 2`) is set from the pixel at index
`0 * 8 * 16 + 8 - 1 = 7`, which is white: the cell is 0, although the mean of
the pixel in the last column of row 0 is `0 <= SIGMA`. -/
theorem C3_boundary_column_reads_column_x :
    build_grid (main_thread_data wide_8_16 gray_tiles 1 0) wide_8_16 (fun _ _ => 0) 0 2 = 0 ∧
    (main_thread_data wide_8_16 gray_tiles 1 0).q = 2 ∧
    threshold (wide_8_16.data (0 * 8 * wide_8_16.y + (wide_8_16.y - 1))) = 1 ∧
    ((wide_8_16.data (0 * 8 * wide_8_16.y + (wide_8_16.y - 1))).red.val
      + (wide_8_16.data (0 * 8 * wide_8_16.y + (wide_8_16.y - 1))).green.val
      + (wide_8_16.data (0 * 8 * wide_8_16.y + (wide_8_16.y - 1))).blue.val) / 3 ≤ SIGMA := by
  decide

/-- C4 (the claim fails as stated): on the 16 x 16 image whose pixels all
have the channels `(201, 200, 200)`, the boundary fill stores 1 in the
boundary-row cell `grid[p][0]` although the mean of the channels of the pixel
in the last row at column 0, `601 / 3`, is above the threshold 200. -/
theorem C4_mean_above_threshold_gives_one :
    boundary_fill (main_thread_data gray_601_16 gray_tiles 1 0) gray_601_16 (fun _ _ => 0)
      (main_thread_data gray_601_16 gray_tiles 1 0).p 0 = 1 ∧
    (SIGMA : ℚ)
      < channel_mean (gray_601_16.data ((gray_601_16.x - 1) * gray_601_16.y + 0 * 8)) := by
  refine ⟨by decide, ?_⟩
  have h1 : ((201 : Fin 256).val : ℚ) = 201 := by norm_cast
  have h2 : ((200 : Fin 256).val : ℚ) = 200 := by norm_cast
  simp only [channel_mean, gray_601_16, pixel_601, SIGMA, h1, h2]
  norm_num

/-- C4 (amended): after the boundary fill, every boundary-row cell `grid[p][j]`
with `j < q` is 1 exactly when the truncated integer mean
`(red + green + blue) / 3`, as the code computes it, of the pixel
in the last row of the canvas (row `x - 1`; the canvas has at least one row)
at column `j * step_y` is at most `SIGMA`, and 0 exactly when that truncated
mean is above `SIGMA`. -/
theorem C4_boundary_row_cell (d : thread_data) (canvas : ppm_image) (grid : Grid)
    (hx : 0 < canvas.x) (j : Nat) (hj : j < d.q) :
    (boundary_fill d canvas grid d.p j = 1 ↔
      ((canvas.data ((canvas.x - 1) * canvas.y + j * d.step_y)).red.val
        + (canvas.data ((canvas.x - 1) * canvas.y + j * d.step_y)).green.val
        + (canvas.data ((canvas.x - 1) * canvas.y + j * d.step_y)).blue.val) / 3 ≤ SIGMA) ∧
    (boundary_fill d canvas grid d.p j = 0 ↔
      SIGMA < ((canvas.data ((canvas.x - 1) * canvas.y + j * d.step_y)).red.val
        + (canvas.data ((canvas.x - 1) * canvas.y + j * d.step_y)).green.val
        + (canvas.data ((canvas.x - 1) * canvas.y + j * d.step_y)).blue.val) / 3) := by
  have _hrow : canvas.x - 1 < canvas.x := Nat.sub_lt hx Nat.one_pos
  have hc : d.p = d.p ∧ j < d.q := ⟨rfl, hj⟩
  rw [boundary_fill, boundary_row_spec, if_pos hc]
  exact ⟨threshold_eq_one_iff _, threshold_eq_zero_iff _⟩

/-- Witness of C4 (amended): cell `(p, 1)` of the all-black 16 x 16 image. -/
theorem C4_boundary_row_cell_witness :
    (boundary_fill (main_thread_data black_16 gray_tiles 1 0) black_16 (fun _ _ => 0)
        (main_thread_data black_16 gray_tiles 1 0).p 1 = 1 ↔
      ((black_16.data ((black_16.x - 1) * black_16.y + 1 * 8)).red.val
        + (black_16.data ((black_16.x - 1) * black_16.y + 1 * 8)).green.val
        + (black_16.data ((black_16.x - 1) * black_16.y + 1 * 8)).blue.val) / 3 ≤ SIGMA) ∧
    (boundary_fill (main_thread_data black_16 gray_tiles 1 0) black_16 (fun _ _ => 0)
        (main_thread_data black_16 gray_tiles 1 0).p 1 = 0 ↔
      SIGMA < ((black_16.data ((black_16.x - 1) * black_16.y + 1 * 8)).red.val
        + (black_16.data ((black_16.x - 1) * black_16.y + 1 * 8)).green.val
        + (black_16.data ((black_16.x - 1) * black_16.y + 1 * 8)).blue.val) / 3) :=
  C4_boundary_row_cell (main_thread_data black_16 gray_tiles 1 0) black_16 (fun _ _ => 0)
    (by decide) 1 (by decide)

/-- C5 (evaluation at a failing input): for the 4096 x 4096 source image
`large_4096` the working canvas is the rescaled image of 2048 x 2048 pixels,
whose dimensions divided by the step are 256 and 256, while the `p` and `q`
that `main` hands to every worker are 512 and 512, computed from the source
image. -/
theorem C5_grid_dims_from_source
    (sample_at : ppm_image → Nat → Nat → Nat → Nat → ppm_pixel)
    (contour_map : Nat → ppm_image) (buffer : Nat → ppm_pixel) (num_threads i : Nat) :
    (main_thread_data large_4096 contour_map num_threads i).p = 512 ∧
    (main_thread_data large_4096 contour_map num_threads i).q = 512 ∧
    (rescale_step sample_at (main_thread_data large_4096 contour_map num_threads i)
      large_4096 (main_memory large_4096 buffer (fun _ _ => 0)).scaled_image).x / STEP = 256 ∧
    (rescale_step sample_at (main_thread_data large_4096 contour_map num_threads i)
      large_4096 (main_memory large_4096 buffer (fun _ _ => 0)).scaled_image).y / STEP = 256 := by
  have h : ¬ (large_4096.x ≤ RESCALE_X ∧ large_4096.y ≤ RESCALE_Y) := by decide
  have hd := rescale_step_dims sample_at (main_thread_data large_4096 contour_map num_threads i)
    large_4096 (main_memory large_4096 buffer (fun _ _ => 0)).scaled_image h
  rw [hd.1, hd.2]
  exact ⟨rfl, rfl, rfl, rfl⟩

/-- C6: for every thread count `T >= 1` (in particular `1 <= T <= p`) and
every row `i < p`, exactly one worker id below `T` has `i` in its row range
`[start, end)`, where `start = id * p / T` and `end = min((id + 1) * p / T, p)`:
no row is skipped and no row lies in two ranges. -/
theorem C6_partition_coverage (d : thread_data) (hT : 1 ≤ d.num_threads)
    (i : Nat) (hi : i < d.p) :
    ∃! id, id < d.num_threads ∧
      grid_start { d with thread_id := id } ≤ i ∧ i < grid_end { d with thread_id := id } := by
  obtain ⟨p, q, sx, sy, tid, T, cm⟩ := d
  simp only [grid_start, grid_end] at *
  have hTpos : 0 < T := hT
  have hppos : 0 < p := by omega
  have key : ∀ id, (id * p / T ≤ i ↔ id * p < (i + 1) * T) := by
    intro id
    rw [← Nat.lt_succ_iff, Nat.div_lt_iff_lt_mul hTpos]
  have key2 : ∀ id, (i < (id + 1) * p / T ↔ (i + 1) * T ≤ id * p + p) := by
    intro id
    rw [Nat.lt_iff_add_one_le, Nat.le_div_iff_mul_le hTpos, Nat.succ_mul id p]
  have hN1 : 0 < (i + 1) * T := Nat.mul_pos (Nat.succ_pos _) hTpos
  have hN2 : (i + 1) * T ≤ T * p := by
    rw [Nat.mul_comm T p]
    exact Nat.mul_le_mul_right _ hi
  generalize (i + 1) * T = N at key key2 hN1 hN2
  have hw1 : (N - 1) / p * p ≤ N - 1 := Nat.div_mul_le_self _ _
  have hw2 : N - 1 < (N - 1) / p * p + p := by
    have h1 := Nat.div_add_mod (N - 1) p
    have h2 := Nat.mod_lt (N - 1) hppos
    rw [Nat.mul_comm] at h1
    omega
  refine ⟨(N - 1) / p, ⟨?_, ?_, ?_⟩, ?_⟩
  · rw [Nat.div_lt_iff_lt_mul hppos]
    omega
  · rw [key]
    omega
  · rw [lt_min_iff, key2]
    exact ⟨by omega, hi⟩
  · rintro id ⟨_, h2, h3⟩
    rw [key] at h2
    rw [lt_min_iff, key2] at h3
    have h4 := h3.1
    apply Nat.le_antisymm
    · rw [Nat.le_div_iff_mul_le hppos]
      omega
    · rw [← Nat.lt_succ_iff, Nat.div_lt_iff_lt_mul hppos, Nat.succ_mul]
      omega

/-- Witness of C6: `p = 2` rows, `T = 2` workers, row 1. -/
theorem C6_partition_coverage_witness :
    ∃! id, id < (main_thread_data black_16 gray_tiles 2 0).num_threads ∧
      grid_start { main_thread_data black_16 gray_tiles 2 0 with thread_id := id } ≤ 1 ∧
      1 < grid_end { main_thread_data black_16 gray_tiles 2 0 with thread_id := id } :=
  C6_partition_coverage (main_thread_data black_16 gray_tiles 2 0) (by decide) 1 (by decide)

set_option maxRecDepth 100000 in
/-- C7 (evaluation at a failing input): on the all-black 16 x 16 image, with
the grid allocation holding zero bytes, the schedule in which worker 0 of 2
finishes before worker 1 starts writes out tile 12 over the first block
(pixel 0 has the channels of tile 12), while the run with one worker writes
out tile 15 there.  Worker 0 computes the index of cell `(0, 0)` from
`grid[1][0]` and `grid[1][1]` before worker 1 has stored them. -/
theorem C7_two_workers_differ :
    (output_image (run_workers sample_black black_16 gray_tiles 2 black_16_memory)).data 0
      = (gray_tiles 12).data 0 ∧
    (output_image (run_workers sample_black black_16 gray_tiles 1 black_16_memory)).data 0
      = (gray_tiles 15).data 0 ∧
    (gray_tiles 12).data 0 ≠ (gray_tiles 15).data 0 := by
  refine ⟨?_, ?_, ?_⟩ <;> decide

/-- C8: with one worker, after the grid builder (interior fill, corner,
boundary column, boundary row) every cell `grid[i][j]` with `i <= p` and
`j <= q` holds 0 or 1 and has been written (its value does not depend on what
the grid held before), and the corner cell `grid[p][q]` holds 0. -/
theorem C8_grid_fully_built (d : thread_data) (canvas : ppm_image) (grid grid2 : Grid)
    (h0 : d.thread_id = 0) (h1 : d.num_threads = 1)
    (i j : Nat) (hi : i ≤ d.p) (hj : j ≤ d.q) :
    (build_grid d canvas grid i j = 0 ∨ build_grid d canvas grid i j = 1) ∧
    build_grid d canvas grid i j = build_grid d canvas grid2 i j ∧
    build_grid d canvas grid d.p d.q = 0 := by
  refine ⟨?_, ?_, ?_⟩
  · have := build_grid_single_le_one d canvas grid h0 h1 i j hi hj
    omega
  · rw [build_grid_single d canvas grid h0 h1 i j hi hj,
      build_grid_single d canvas grid2 h0 h1 i j hi hj]
  · rw [build_grid_single d canvas grid h0 h1 d.p d.q (Nat.le_refl _) (Nat.le_refl _)]
    simp

/-- Witness of C8: cell `(2, 1)` of the grid of the all-black 16 x 16 image,
from an all-zero and from an all-255 grid allocation. -/
theorem C8_grid_fully_built_witness :
    (build_grid (main_thread_data black_16 gray_tiles 1 0) black_16 (fun _ _ => 0) 2 1 = 0 ∨
      build_grid (main_thread_data black_16 gray_tiles 1 0) black_16 (fun _ _ => 0) 2 1 = 1) ∧
    build_grid (main_thread_data black_16 gray_tiles 1 0) black_16 (fun _ _ => 0) 2 1
      = build_grid (main_thread_data black_16 gray_tiles 1 0) black_16 (fun _ _ => 255) 2 1 ∧
    build_grid (main_thread_data black_16 gray_tiles 1 0) black_16 (fun _ _ => 0)
      (main_thread_data black_16 gray_tiles 1 0).p (main_thread_data black_16 gray_tiles 1 0).q
      = 0 :=
  C8_grid_fully_built (main_thread_data black_16 gray_tiles 1 0) black_16 (fun _ _ => 0)
    (fun _ _ => 255) rfl rfl 2 1 (by decide) (by decide)

/-- C9: when every cell of the `(p + 1) x (q + 1)` grid holds 0 or 1, the
configuration index of every cell `(i, j)` with `i < p` and `j < q` equals
`8 * grid[i][j] + 4 * grid[i][j+1] + 2 * grid[i+1][j+1] + grid[i+1][j]` and is
below 16, the size of the tile table; and every `k < 16` is the index of the
corner assignment whose top-left, top-right, bottom-right and bottom-left
bits are the binary digits of `k` with weights 8, 4, 2, 1. -/
theorem C9_config_index_range (grid : Grid) (p q : Nat)
    (hgrid : ∀ a b, a ≤ p → b ≤ q → grid a b = 0 ∨ grid a b = 1)
    (i j : Nat) (hi : i < p) (hj : j < q) :
    (config_index grid i j
        = 8 * grid i j + 4 * grid i (j + 1) + 2 * grid (i + 1) (j + 1) + 1 * grid (i + 1) j ∧
      config_index grid i j < CONTOUR_CONFIG_COUNT) ∧
    ∀ k, k < CONTOUR_CONFIG_COUNT →
      config_index
        (set_cell (set_cell (set_cell (set_cell grid i j (k / 8 % 2)) i (j + 1) (k / 4 % 2))
          (i + 1) (j + 1) (k / 2 % 2)) (i + 1) j (k % 2)) i j = k := by
  have b1 := hgrid i j (by omega) (by omega)
  have b2 := hgrid i (j + 1) (by omega) (by omega)
  have b3 := hgrid (i + 1) (j + 1) (by omega) (by omega)
  have b4 := hgrid (i + 1) j (by omega) (by omega)
  refine ⟨config_index_of_bits grid i j (by omega) (by omega) (by omega) (by omega), ?_⟩
  intro k hk
  unfold CONTOUR_CONFIG_COUNT at hk
  simp only [config_index, set_cell_apply]
  have n1 : ¬ (i = i + 1) := by omega
  have n2 : ¬ (j = j + 1) := by omega
  have n3 : ¬ (j + 1 = j) := by omega
  have n4 : ¬ (i + 1 = i) := by omega
  simp only [n1, n2, n3, n4, false_and, and_false, and_self, if_true, if_false]
  omega

/-- Witness of C9: the all-ones grid of two rows and two columns of cells. -/
theorem C9_config_index_range_witness :
    (config_index (fun _ _ => 1) 1 1
        = 8 * (fun _ _ => 1 : Grid) 1 1 + 4 * (fun _ _ => 1 : Grid) 1 (1 + 1)
          + 2 * (fun _ _ => 1 : Grid) (1 + 1) (1 + 1) + 1 * (fun _ _ => 1 : Grid) (1 + 1) 1 ∧
      config_index (fun _ _ => 1) 1 1 < CONTOUR_CONFIG_COUNT) ∧
    ∀ k, k < CONTOUR_CONFIG_COUNT →
      config_index
        (set_cell (set_cell (set_cell (set_cell (fun _ _ => 1) 1 1 (k / 8 % 2)) 1 (1 + 1)
          (k / 4 % 2)) (1 + 1) (1 + 1) (k / 2 % 2)) (1 + 1) 1 (k % 2)) 1 1 = k :=
  C9_config_index_range (fun _ _ => 1) 2 2 (fun _ _ _ _ => Or.inr rfl) 1 1
    (by decide) (by decide)

/-- C10: when the source image is within both rescale bounds, the rescale
step of `thread_function` leaves the working canvas equal to the source image
(same `x`, same `y`, the same pixel at every index), the rescale buffer is
not written, and the grid is built from the source image. -/
theorem C10_no_rescale_within_bounds
    (sample_at : ppm_image → Nat → Nat → Nat → Nat → ppm_pixel)
    (d : thread_data) (m : shared_memory)
    (hx : m.image.x ≤ RESCALE_X) (hy : m.image.y ≤ RESCALE_Y) :
    ((rescale_step sample_at d m.image m.scaled_image).x = m.image.x ∧
      (rescale_step sample_at d m.image m.scaled_image).y = m.image.y ∧
      ∀ n, (rescale_step sample_at d m.image m.scaled_image).data n = m.image.data n) ∧
    (thread_function sample_at d m).scaled_image = m.scaled_image ∧
    (thread_function sample_at d m).grid = build_grid d m.image m.grid := by
  have hcond : m.image.x ≤ RESCALE_X ∧ m.image.y ≤ RESCALE_Y := ⟨hx, hy⟩
  have hr : rescale_step sample_at d m.image m.scaled_image = m.image := by
    unfold rescale_step
    rw [if_pos hcond]
  refine ⟨by rw [hr]; exact ⟨rfl, rfl, fun _ => rfl⟩, ?_, ?_⟩
  · simp only [thread_function, if_pos hcond]
  · simp only [thread_function, if_pos hcond, hr]

/-- Witness of C10: the all-black 16 x 16 image with worker 0 of 1. -/
theorem C10_no_rescale_within_bounds_witness :
    ((rescale_step sample_black (main_thread_data black_16 gray_tiles 1 0)
        black_16_memory.image black_16_memory.scaled_image).x = black_16_memory.image.x ∧
      (rescale_step sample_black (main_thread_data black_16 gray_tiles 1 0)
        black_16_memory.image black_16_memory.scaled_image).y = black_16_memory.image.y ∧
      ∀ n, (rescale_step sample_black (main_thread_data black_16 gray_tiles 1 0)
        black_16_memory.image black_16_memory.scaled_image).data n
          = black_16_memory.image.data n) ∧
    (thread_function sample_black (main_thread_data black_16 gray_tiles 1 0)
        black_16_memory).scaled_image = black_16_memory.scaled_image ∧
    (thread_function sample_black (main_thread_data black_16 gray_tiles 1 0)
        black_16_memory).grid
      = build_grid (main_thread_data black_16 gray_tiles 1 0) black_16_memory.image
          black_16_memory.grid :=
  C10_no_rescale_within_bounds sample_black (main_thread_data black_16 gray_tiles 1 0)
    black_16_memory (by decide) (by decide)

/-! ## Further auxiliary facts -/

theorem ppm_image_ext (a b : ppm_image) (hx : a.x = b.x) (hy : a.y = b.y)
    (hd : ∀ n, a.data n = b.data n) : a = b := by
  obtain ⟨ax, ay, ad⟩ := a
  obtain ⟨bx, b_y, bd⟩ := b
  simp only at hx hy hd
  subst hx
  subst hy
  have : ad = bd := funext hd
  subst this
  rfl

/-- The function `update_image` never changes the dimensions of the image. -/
theorem update_image_dims (image t : ppm_image) (x0 y0 : Nat) :
    (update_image image t x0 y0).x = image.x ∧ (update_image image t x0 y0).y = image.y := by
  unfold update_image
  refine for_loop_invariant (fun (s : ppm_image) => s.x = image.x ∧ s.y = image.y) _ ?_ _ _ _
    ⟨rfl, rfl⟩
  intro i s hs
  refine for_loop_invariant (fun (s : ppm_image) => s.x = image.x ∧ s.y = image.y) _ ?_ _ _ _ hs
  intro j s2 hs2
  exact hs2

/-- The march loop never changes the dimensions of the canvas. -/
theorem march_dims (d : thread_data) (grid : Grid) (canvas : ppm_image) :
    (march d grid canvas).x = canvas.x ∧ (march d grid canvas).y = canvas.y := by
  unfold march
  refine for_loop_invariant (fun (s : ppm_image) => s.x = canvas.x ∧ s.y = canvas.y) _ ?_ _ _ _
    ⟨rfl, rfl⟩
  intro i s hs
  refine for_loop_invariant (fun (s : ppm_image) => s.x = canvas.x ∧ s.y = canvas.y) _ ?_ _ _ _ hs
  intro j s2 hs2
  have := update_image_dims s2 (d.contour_map (config_index grid i j)) (i * d.step_x)
    (j * d.step_y)
  exact ⟨this.1.trans hs2.1, this.2.trans hs2.2⟩

/-- With no columns of cells the march loop does nothing. -/
theorem march_of_q_zero (d : thread_data) (grid : Grid) (canvas : ppm_image)
    (hq : d.q = 0) : march d grid canvas = canvas := by
  unfold march
  refine for_loop_invariant (fun (s : ppm_image) => s = canvas) _ ?_ _ _ _ rfl
  intro i s hs
  rw [hq, for_loop_empty 0 0 _ s (Nat.le_refl _)]
  exact hs

/-- When the source image is within the rescale bounds, the image written
out after one run of `thread_function` is the source image marched with the
grid that the worker built from it. -/
theorem thread_function_output (sample_at : ppm_image → Nat → Nat → Nat → Nat → ppm_pixel)
    (d : thread_data) (image : ppm_image) (buffer : Nat → ppm_pixel) (grid0 : Grid)
    (hx : image.x ≤ RESCALE_X) (hy : image.y ≤ RESCALE_Y) :
    output_image (thread_function sample_at d (main_memory image buffer grid0))
      = march d (build_grid d image grid0) image := by
  have hcond : image.x ≤ RESCALE_X ∧ image.y ≤ RESCALE_Y := ⟨hx, hy⟩
  have hm := march_dims d (build_grid d image grid0) image
  simp only [thread_function, main_memory, rescale_step, if_pos hcond, output_image]
  rw [if_pos]
  rw [hm.1, hm.2]
  exact hcond

/-- The tiles that the march loop of a worker looks up are 8 x 8 when the
grid holds bits and the first 16 tiles are 8 x 8. -/
theorem march_tiles_of_bits (d : thread_data) (grid : Grid)
    (hsx : d.step_x = 8) (hsy : d.step_y = 8)
    (hgrid : ∀ a b, a ≤ d.p → b ≤ d.q → grid a b = 0 ∨ grid a b = 1)
    (htiles : ∀ k, k < CONTOUR_CONFIG_COUNT →
      (d.contour_map k).x = 8 ∧ (d.contour_map k).y = 8) :
    ∀ i j, grid_start d ≤ i → i < grid_end d → j < d.q →
      (d.contour_map (config_index grid i j)).x = d.step_x ∧
      (d.contour_map (config_index grid i j)).y = d.step_y := by
  intro i j _ hi hj
  have hip : i < d.p := Nat.lt_of_lt_of_le hi (grid_end_le d)
  have b1 := hgrid i j (by omega) (by omega)
  have b2 := hgrid i (j + 1) (by omega) (by omega)
  have b3 := hgrid (i + 1) (j + 1) (by omega) (by omega)
  have b4 := hgrid (i + 1) j (by omega) (by omega)
  rw [hsx, hsy]
  exact htiles _ (config_index_of_bits grid i j (by omega) (by omega) (by omega) (by omega)).2

/-! ## The claims, continued -/

/-- C11: for every canvas, every grid whose cells hold 0 or 1, and every
tile table whose 16 tiles are 8 x 8, with step 8 and the blocks within the
row length of the canvas, running the march loop of a worker a second time
on the result of the first run, with the same grid, gives the same canvas:
`march (march c) = march c`. -/
theorem C11_march_idempotent (d : thread_data) (grid : Grid) (canvas : ppm_image)
    (hsx : d.step_x = 8) (hsy : d.step_y = 8)
    (hgrid : ∀ a b, a ≤ d.p → b ≤ d.q → grid a b = 0 ∨ grid a b = 1)
    (htiles : ∀ k, k < CONTOUR_CONFIG_COUNT →
      (d.contour_map k).x = 8 ∧ (d.contour_map k).y = 8)
    (hcols : d.q * 8 ≤ canvas.y) :
    march d grid (march d grid canvas) = march d grid canvas := by
  rcases Nat.eq_zero_or_pos d.q with hq0 | hqpos
  · rw [march_of_q_zero d grid canvas hq0, march_of_q_zero d grid canvas hq0]
  · have hY : 0 < canvas.y := by omega
    have htile := march_tiles_of_bits d grid hsx hsy hgrid htiles
    have hq : d.q * d.step_y ≤ canvas.y := by rw [hsy]; exact hcols
    have h1 := march_spec d grid canvas hq htile
    have hq2 : d.q * d.step_y ≤ (march d grid canvas).y := by rw [h1.1.2]; exact hq
    have h2 := march_spec d grid (march d grid canvas) hq2 htile
    apply ppm_image_ext
    · exact h2.1.1
    · exact h2.1.2
    · intro n
      have hn : n = n / canvas.y * canvas.y + n % canvas.y := by
        have := Nat.div_add_mod n canvas.y
        rw [Nat.mul_comm] at this
        exact this.symm
      have hc : n % canvas.y < canvas.y := Nat.mod_lt _ hY
      have s1 := h1.2 (n / canvas.y) (n % canvas.y) hc
      have s2 := h2.2 (n / canvas.y) (n % canvas.y) (by rw [h1.1.2]; exact hc)
      rw [h1.1.2, ← hn] at s2
      rw [← hn] at s1
      by_cases hit : ∃ i, grid_start d ≤ i ∧ i < grid_end d ∧
          (i * d.step_x ≤ n / canvas.y ∧ n / canvas.y < i * d.step_x + d.step_x) ∧
          n % canvas.y < d.q * d.step_y
      · obtain ⟨i, a1, a2, ⟨a3, a4⟩, a5⟩ := hit
        rw [s2.1 i a1 a2 a3 a4 a5, s1.1 i a1 a2 a3 a4 a5]
      · exact s2.2 (fun i a1 a2 a3 => hit ⟨i, a1, a2, a3.1, a3.2⟩)

/-- Witness of C11: worker 0 of 1 on the all-black 16 x 16 image with the
all-ones grid and the gray tiles. -/
theorem C11_march_idempotent_witness :
    march (main_thread_data black_16 gray_tiles 1 0) (fun _ _ => 1)
        (march (main_thread_data black_16 gray_tiles 1 0) (fun _ _ => 1) black_16)
      = march (main_thread_data black_16 gray_tiles 1 0) (fun _ _ => 1) black_16 :=
  C11_march_idempotent (main_thread_data black_16 gray_tiles 1 0) (fun _ _ => 1) black_16
    rfl rfl (fun _ _ _ _ => Or.inr rfl) (fun _ _ => ⟨rfl, rfl⟩) (by decide)

set_option maxRecDepth 100000 in
/-- C12 (the claim fails as stated): for the all-white 16 x 16 image and the
gray tiles, `main` sets `p = q = 2`, so there are four interior cells, not
one; and the pixel in row 0, column 8, outside the top-left 8 x 8 block, is
not white any more after the run: it holds pixel 0 of tile 0. -/
theorem C12_four_blocks_stamped :
    (main_thread_data white_16 gray_tiles 1 0).p = 2 ∧
    (main_thread_data white_16 gray_tiles 1 0).q = 2 ∧
    white_16.data (0 * 16 + 8) = white_pixel ∧
    (output_image (thread_function sample_black (main_thread_data white_16 gray_tiles 1 0)
        (main_memory white_16 (fun _ => black_pixel) (fun _ _ => 0)))).data (0 * 16 + 8)
      = (gray_tiles 0).data 0 ∧
    (output_image (thread_function sample_black (main_thread_data white_16 gray_tiles 1 0)
        (main_memory white_16 (fun _ => black_pixel) (fun _ _ => 0)))).data (0 * 16 + 8)
      ≠ white_pixel := by
  refine ⟨rfl, rfl, rfl, ?_, ?_⟩ <;> decide

/-- C12 (amended): for a 16 x 16 canvas whose 256 pixels are all white,
stride 8 and any table of 8 x 8 tiles, the pipeline with one worker has
`p = q = 2`, builds a grid of 3 x 3 cells that are all 0, finds the
configuration index 0 for each of the four interior cells, and writes out a
canvas that equals tile 0 in each of the four 8 x 8 blocks: the pixel in row
`r`, column `c` is pixel `8 * (r % 8) + c % 8` of tile 0. -/
theorem C12_all_white_scenario
    (sample_at : ppm_image → Nat → Nat → Nat → Nat → ppm_pixel)
    (image : ppm_image) (contour_map : Nat → ppm_image)
    (buffer : Nat → ppm_pixel) (grid0 : Grid)
    (hx : image.x = 16) (hy : image.y = 16)
    (hwhite : ∀ n, n < 256 → image.data n = white_pixel)
    (htiles : ∀ k, k < CONTOUR_CONFIG_COUNT → (contour_map k).x = 8 ∧ (contour_map k).y = 8) :
    (main_thread_data image contour_map 1 0).p = 2 ∧
    (main_thread_data image contour_map 1 0).q = 2 ∧
    (∀ a b, a ≤ 2 → b ≤ 2 →
      build_grid (main_thread_data image contour_map 1 0) image grid0 a b = 0) ∧
    (∀ i j, i < 2 → j < 2 →
      config_index (build_grid (main_thread_data image contour_map 1 0) image grid0) i j = 0) ∧
    (∀ r c, r < 16 → c < 16 →
      (output_image (thread_function sample_at (main_thread_data image contour_map 1 0)
          (main_memory image buffer grid0))).data (r * 16 + c)
        = (contour_map 0).data (8 * (r % 8) + c % 8)) := by
  generalize hd : main_thread_data image contour_map 1 0 = d
  have hp : d.p = 2 := by rw [← hd]; simp [main_thread_data, hx, STEP]
  have hqq : d.q = 2 := by rw [← hd]; simp [main_thread_data, hy, STEP]
  have hsx : d.step_x = 8 := by rw [← hd]; rfl
  have hsy : d.step_y = 8 := by rw [← hd]; rfl
  have h0 : d.thread_id = 0 := by rw [← hd]; rfl
  have h1 : d.num_threads = 1 := by rw [← hd]; rfl
  have hcm : d.contour_map = contour_map := by rw [← hd]; rfl
  have hthr : ∀ n, n < 256 → threshold (image.data n) = 0 := by
    intro n hn
    rw [hwhite n hn]
    decide
  have hzero : ∀ a b, a ≤ 2 → b ≤ 2 → build_grid d image grid0 a b = 0 := by
    intro a b ha hb
    rw [build_grid_single d image grid0 h0 h1 a b (by omega) (by omega), hp, hqq, hsx, hsy,
      hx, hy]
    split
    · exact hthr _ (by omega)
    · split
      · exact hthr _ (by omega)
      · split
        · rfl
        · exact hthr _ (by omega)
  have hidx : ∀ i j, i < 2 → j < 2 → config_index (build_grid d image grid0) i j = 0 := by
    intro i j hi hj
    unfold config_index
    rw [hzero i j (by omega) (by omega), hzero i (j + 1) (by omega) (by omega),
      hzero (i + 1) (j + 1) (by omega) (by omega), hzero (i + 1) j (by omega) (by omega)]
  refine ⟨hp, hqq, hzero, hidx, ?_⟩
  intro r c hr hc
  rw [thread_function_output sample_at d image buffer grid0 (by rw [hx]; decide)
    (by rw [hy]; decide)]
  have hbits : ∀ a b, a ≤ d.p → b ≤ d.q →
      build_grid d image grid0 a b = 0 ∨ build_grid d image grid0 a b = 1 := by
    intro a b ha hb
    exact Or.inl (hzero a b (by omega) (by omega))
  have htile := march_tiles_of_bits d (build_grid d image grid0) hsx hsy hbits
    (by rw [hcm]; exact htiles)
  have hm := march_spec d (build_grid d image grid0) image
    (by rw [hqq, hsy, hy]) htile
  have hcell := (hm.2 r c (by rw [hy]; exact hc)).1 (r / 8)
    (by rw [grid_start_single d h0]; exact Nat.zero_le _)
    (by rw [grid_end_single d h0 h1, hp]; omega)
    (by rw [hsx]; omega) (by rw [hsx]; omega) (by rw [hsy, hqq]; omega)
  rw [hy] at hcell
  rw [hcell, hsx, hsy, hidx (r / 8) (c / 8) (by omega) (by omega), hcm]
  have e1 : r - r / 8 * 8 = r % 8 := by omega
  have e2 : c - c / 8 * 8 = c % 8 := by omega
  rw [e1, e2]

/-- Witness of C12 (amended): the image `white_16` with the gray tiles. -/
theorem C12_all_white_scenario_witness :
    (main_thread_data white_16 gray_tiles 1 0).p = 2 ∧
    (main_thread_data white_16 gray_tiles 1 0).q = 2 ∧
    (∀ a b, a ≤ 2 → b ≤ 2 →
      build_grid (main_thread_data white_16 gray_tiles 1 0) white_16 (fun _ _ => 7) a b = 0) ∧
    (∀ i j, i < 2 → j < 2 →
      config_index (build_grid (main_thread_data white_16 gray_tiles 1 0) white_16
        (fun _ _ => 7)) i j = 0) ∧
    (∀ r c, r < 16 → c < 16 →
      (output_image (thread_function sample_black (main_thread_data white_16 gray_tiles 1 0)
          (main_memory white_16 (fun _ => black_pixel) (fun _ _ => 7)))).data (r * 16 + c)
        = (gray_tiles 0).data (8 * (r % 8) + c % 8)) :=
  C12_all_white_scenario sample_black white_16 gray_tiles (fun _ => black_pixel)
    (fun _ _ => 7) rfl rfl (fun _ _ => rfl) (fun _ _ => ⟨rfl, rfl⟩)

/-- C19: for a canvas of `x` rows of `y` pixels with `p = x / 8`,
`q = y / 8`, step 8, a grid of bits and 8 x 8 tiles, the march loop of a
worker leaves every pixel in row `r`, column `c < y` with `r >= 8 * p` or
`c >= 8 * q` at its source value, so it changes only pixels with `r < 8 * p`
and `c < 8 * q`; and it leaves `x` and `y` of the canvas unchanged. -/
theorem C19_march_frame (d : thread_data) (grid : Grid) (canvas : ppm_image)
    (hp : d.p = canvas.x / 8) (hq : d.q = canvas.y / 8)
    (hsx : d.step_x = 8) (hsy : d.step_y = 8)
    (hgrid : ∀ a b, a ≤ d.p → b ≤ d.q → grid a b = 0 ∨ grid a b = 1)
    (htiles : ∀ k, k < CONTOUR_CONFIG_COUNT →
      (d.contour_map k).x = 8 ∧ (d.contour_map k).y = 8)
    (r c : Nat) (hc : c < canvas.y) (hout : 8 * d.p ≤ r ∨ 8 * d.q ≤ c) :
    (march d grid canvas).data (r * canvas.y + c) = canvas.data (r * canvas.y + c) ∧
    (march d grid canvas).x = canvas.x ∧ (march d grid canvas).y = canvas.y := by
  have htile := march_tiles_of_bits d grid hsx hsy hgrid htiles
  have hcols : d.q * d.step_y ≤ canvas.y := by
    rw [hq, hsy]
    exact Nat.div_mul_le_self _ _
  have hm := march_spec d grid canvas hcols htile
  have hpx : d.p * 8 ≤ canvas.x := by
    rw [hp]
    exact Nat.div_mul_le_self _ _
  refine ⟨(hm.2 r c hc).2 ?_, hm.1.1, hm.1.2⟩
  intro i _ hi hblock
  have hip : i < d.p := Nat.lt_of_lt_of_le hi (grid_end_le d)
  rw [hsx, hsy] at hblock
  omega

/-- Witness of C19: the pixel in row 3, column 17 of the image `white_20`
(`p = q = 2`), which lies right of the blocks. -/
theorem C19_march_frame_witness :
    (march (main_thread_data white_20 gray_tiles 1 0) (fun _ _ => 1) white_20).data
        (3 * white_20.y + 17) = white_20.data (3 * white_20.y + 17) ∧
    (march (main_thread_data white_20 gray_tiles 1 0) (fun _ _ => 1) white_20).x
      = white_20.x ∧
    (march (main_thread_data white_20 gray_tiles 1 0) (fun _ _ => 1) white_20).y
      = white_20.y :=
  C19_march_frame (main_thread_data white_20 gray_tiles 1 0) (fun _ _ => 1) white_20
    (by decide) (by decide) rfl rfl (fun _ _ _ _ => Or.inr rfl) (fun _ _ => ⟨rfl, rfl⟩)
    3 17 (by decide) (Or.inr (by decide))

/-- C20: for every pixel with 8-bit channels the byte `curr_color` is the
truncated integer mean `(red + green + blue) / 3`, which is at most 255, so
the narrowing to `unsigned char` loses nothing; the cell value is 0 exactly
when `red + green + blue >= 603` and 1 exactly when `red + green + blue <= 602`;
in particular a pixel whose channel sum is 601 or 602, above `3 * SIGMA`,
gives 1. -/
theorem C20_threshold_exact (px : ppm_pixel) :
    curr_color px = (px.red.val + px.green.val + px.blue.val) / 3 ∧
    (px.red.val + px.green.val + px.blue.val) / 3 ≤ 255 ∧
    (threshold px = 0 ↔ 603 ≤ px.red.val + px.green.val + px.blue.val) ∧
    (threshold px = 1 ↔ px.red.val + px.green.val + px.blue.val ≤ 602) ∧
    (px.red.val + px.green.val + px.blue.val = 601 ∨
        px.red.val + px.green.val + px.blue.val = 602 →
      3 * SIGMA < px.red.val + px.green.val + px.blue.val ∧ threshold px = 1) := by
  have e := curr_color_eq px
  have h1 := px.red.isLt
  have h2 := px.green.isLt
  have h3 := px.blue.isLt
  have t0 := threshold_eq_zero_iff px
  have t1 := threshold_eq_one_iff px
  unfold SIGMA at t0 t1 ⊢
  refine ⟨e, by omega, ?_, ?_, ?_⟩
  · rw [t0]; omega
  · rw [t1]; omega
  · intro h
    refine ⟨by omega, ?_⟩
    rw [t1]; omega

/-- Witness of C20: the pixel `(201, 200, 200)`, whose channel sum is 601. -/
theorem C20_threshold_exact_witness :
    3 * SIGMA < (201 : Fin 256).val + (200 : Fin 256).val + (200 : Fin 256).val ∧
    threshold ⟨201, 200, 200⟩ = 1 :=
  (C20_threshold_exact ⟨201, 200, 200⟩).2.2.2.2 (Or.inl (by decide))

/-- The table that `init_contour_map` has filled after `n` of its reads have
returned. -/
theorem init_contour_map_loop (read_tile : Nat → Option ppm_image)
    (tiles map : Nat → ppm_image) (n : Nat)
    (h : ∀ i, i < n → read_tile i = some (tiles i)) :
    for_loop 0 n (fun i (map : Option (Nat → ppm_image)) =>
        match map with
        | none => none
        | some map =>
          match read_tile i with
          | none => none
          | some tile => some (fun k => if k = i then tile else map k))
        (some map)
      = some (fun k => if k < n then tiles k else map k) := by
  induction n with
  | zero =>
    rw [for_loop_empty 0 0 _ _ (Nat.le_refl _)]
    simp
  | succ n ih =>
    rw [for_loop_succ 0 n _ _ (Nat.zero_le _), ih (fun i hi => h i (Nat.lt_succ_of_lt hi))]
    simp only [h n (Nat.lt_succ_self n)]
    congr 1
    funext k
    by_cases h1 : k = n
    · subst h1
      simp
    · by_cases h2 : k < n
      · simp [h1, h2, Nat.lt_succ_of_lt h2]
      · have h3 : ¬ k < n + 1 := by omega
        simp [h1, h2, h3]

/-- C14: `main` returns exit code 1 with the usage message on standard
error and without having called `read_ppm` exactly when `argc < 4`, that is
with fewer than three positional arguments; with `argc >= 4` the usage
message is not printed. -/
theorem C14_usage_iff (env : environment) (argc : Nat) (num_threads : Int) :
    (((main env argc num_threads).exit_code = 1 ∧
        (main env argc num_threads).stderr = some diagnostic.usage ∧
        (main env argc num_threads).image_read = false) ↔ argc < 4) ∧
    ((main env argc num_threads).stderr = some diagnostic.usage ↔ argc < 4) := by
  have key : (main env argc num_threads).stderr = some diagnostic.usage → argc < 4 := by
    intro h
    by_contra hlt
    revert h
    unfold main
    rw [if_neg hlt]
    split
    · simp [fatal]
    · split
      · simp [fatal]
      · split
        · simp [fatal]
        · split
          · simp [fatal]
          · split
            · simp only [fatal]
              split <;> simp
            · split
              · simp [fatal]
              · split
                · simp [fatal]
                · simp
  refine ⟨⟨fun h => key h.2.1, fun h => ?_⟩, ⟨key, fun h => ?_⟩⟩
  · simp [main, h]
  · simp [main, h]

/-- C16 (the claim fails as stated): with three workers, worker 0 rescales
the rows `[0, 682)`, computed as `0 * 2048 / 3` and `1 * 2048 / 3`, while
ranges of size `ceil(2048 / 3) = 683` would give it the rows `[0, 683)`. -/
theorem C16_ranges_not_ceil_sized :
    rescale_start (main_thread_data large_4096 gray_tiles 3 0) RESCALE_X = 0 ∧
    rescale_end (main_thread_data large_4096 gray_tiles 3 0) RESCALE_X = 682 ∧
    spec_range_size RESCALE_X 3 = 683 ∧
    spec_rescale_end RESCALE_X 3 0 = 683 ∧
    rescale_end (main_thread_data large_4096 gray_tiles 3 0) RESCALE_X
      ≠ spec_rescale_end RESCALE_X 3 0 := by
  decide

theorem mul_div_step (T a w : Nat) (hT : 0 < T) :
    a / T + w / T ≤ (a + w) / T ∧ (a + w) / T ≤ a / T + (w + T - 1) / T := by
  have ha := Nat.div_add_mod a T
  have hw := Nat.div_add_mod w T
  have hra := Nat.mod_lt a hT
  have hrw := Nat.mod_lt w hT
  generalize a / T = qa at *
  generalize a % T = ra at *
  generalize w / T = qw at *
  generalize w % T = rw at *
  have e1 : a + w = T * (qa + qw) + (ra + rw) := by rw [Nat.mul_add]; omega
  have e2 : (a + w) / T = qa + qw + (ra + rw) / T := by
    rw [e1, Nat.mul_add_div hT]
  have e4 : w + T - 1 = T * qw + (rw + T - 1) := by omega
  have e5 : (w + T - 1) / T = qw + (rw + T - 1) / T := by
    rw [e4, Nat.mul_add_div hT]
  have e3 : (ra + rw) / T ≤ 1 := by
    rw [← Nat.lt_succ_iff, Nat.div_lt_iff_lt_mul hT]
    omega
  have e6 : 0 < rw → 1 ≤ (rw + T - 1) / T := by
    intro hpos
    rw [Nat.le_div_iff_mul_le hT]
    omega
  have e7 : rw = 0 → (ra + rw) / T = 0 := by
    intro h0
    subst h0
    exact Nat.div_eq_of_lt (by omega)
  rw [e2, e5]
  generalize (ra + rw) / T = q1 at e3 e7
  generalize (rw + T - 1) / T = q2 at e6
  refine ⟨by omega, ?_⟩
  rcases Nat.eq_zero_or_pos rw with h0 | hpos
  · have := e7 h0
    omega
  · have := e6 hpos
    omega

/-- C16 (amended): in the rescale phase, for every thread count `T >= 1`
worker `id < T` processes the rows `[id * outW / T, (id + 1) * outW / T)`
(truncated division; the clip to `outW` never cuts).  These ranges are
contiguous: the range of worker `id` ends where the range of an
`id + 1` starts, the first starts at 0 and the last ends at `outW`; each has
`floor(outW / T)` or `ceil(outW / T)` rows; and the ranges of all workers
are the ranges `[id * ceil(outW / T), min((id + 1) * ceil(outW / T), outW))`
exactly when `T` divides `outW`. -/
theorem C16_rescale_ranges (d : thread_data) (out_w : Nat)
    (hT : 1 ≤ d.num_threads) (hid : d.thread_id < d.num_threads) :
    rescale_start d out_w = d.thread_id * out_w / d.num_threads ∧
    rescale_end d out_w = (d.thread_id + 1) * out_w / d.num_threads ∧
    rescale_end d out_w = rescale_start { d with thread_id := d.thread_id + 1 } out_w ∧
    rescale_start { d with thread_id := 0 } out_w = 0 ∧
    rescale_end { d with thread_id := d.num_threads - 1 } out_w = out_w ∧
    out_w / d.num_threads ≤ rescale_end d out_w - rescale_start d out_w ∧
    rescale_end d out_w - rescale_start d out_w ≤ spec_range_size out_w d.num_threads ∧
    (d.num_threads ∣ out_w ↔
      ∀ id, id < d.num_threads →
        rescale_start { d with thread_id := id } out_w
          = spec_rescale_start out_w d.num_threads id ∧
        rescale_end { d with thread_id := id } out_w
          = spec_rescale_end out_w d.num_threads id) := by
  have hTpos : 0 < d.num_threads := hT
  have hle : (d.thread_id + 1) * out_w / d.num_threads ≤ out_w :=
    Nat.div_le_of_le_mul (Nat.mul_le_mul_right _ hid)
  have hstart : rescale_start d out_w = d.thread_id * out_w / d.num_threads := rfl
  have hend : rescale_end d out_w = (d.thread_id + 1) * out_w / d.num_threads :=
    Nat.min_eq_left hle
  have hstep := mul_div_step d.num_threads (d.thread_id * out_w) out_w hTpos
  have hsucc : (d.thread_id + 1) * out_w = d.thread_id * out_w + out_w := Nat.succ_mul _ _
  refine ⟨hstart, hend, hend, ?_, ?_, ?_, ?_, ?_⟩
  · show 0 * out_w / d.num_threads = 0
    simp
  · show min ((d.num_threads - 1 + 1) * out_w / d.num_threads) out_w = out_w
    have e : d.num_threads - 1 + 1 = d.num_threads := by omega
    rw [e, Nat.mul_div_cancel_left _ hTpos, Nat.min_self]
  · rw [hend, hstart, hsucc]
    generalize (d.thread_id * out_w + out_w) / d.num_threads = u at hstep
    generalize d.thread_id * out_w / d.num_threads = v at hstep
    generalize out_w / d.num_threads = z at hstep
    omega
  · rw [hend, hstart, hsucc]
    unfold spec_range_size
    generalize (d.thread_id * out_w + out_w) / d.num_threads = u at hstep
    generalize d.thread_id * out_w / d.num_threads = v at hstep
    generalize (out_w + d.num_threads - 1) / d.num_threads = z at hstep
    omega
  · constructor
    · rintro ⟨k, hk⟩ id _
      show id * out_w / d.num_threads = spec_rescale_start out_w d.num_threads id ∧
        min ((id + 1) * out_w / d.num_threads) out_w = spec_rescale_end out_w d.num_threads id
      unfold spec_rescale_start spec_rescale_end spec_range_size
      subst hk
      have c1 : (d.num_threads * k + d.num_threads - 1) / d.num_threads = k := by
        have e : d.num_threads * k + d.num_threads - 1
            = d.num_threads * k + (d.num_threads - 1) := by omega
        rw [e, Nat.mul_add_div hTpos, Nat.div_eq_of_lt (by omega), Nat.add_zero]
      have c2 : ∀ m, m * (d.num_threads * k) / d.num_threads = m * k := by
        intro m
        rw [Nat.mul_left_comm, Nat.mul_div_cancel_left _ hTpos]
      rw [c1, c2, c2]
      exact ⟨rfl, rfl⟩
    · intro hall
      have h0 : min ((0 + 1) * out_w / d.num_threads) out_w
          = min ((0 + 1) * ((out_w + d.num_threads - 1) / d.num_threads)) out_w :=
        (hall 0 hTpos).2
      rw [Nat.zero_add, Nat.one_mul, Nat.one_mul] at h0
      rcases Nat.eq_zero_or_pos (out_w % d.num_threads) with hr | hr
      · exact Nat.dvd_of_mod_eq_zero hr
      · exfalso
        have hdm := Nat.div_add_mod out_w d.num_threads
        have hrl := Nat.mod_lt out_w hTpos
        have hqle : out_w / d.num_threads ≤ d.num_threads * (out_w / d.num_threads) :=
          Nat.le_mul_of_pos_left _ hTpos
        have hceil : (out_w + d.num_threads - 1) / d.num_threads
            = out_w / d.num_threads + 1 := by
          have e : out_w + d.num_threads - 1
              = d.num_threads * (out_w / d.num_threads)
                + (out_w % d.num_threads + d.num_threads - 1) := by omega
          have e1 : (out_w % d.num_threads + d.num_threads - 1) / d.num_threads = 1 :=
            Nat.div_eq_of_lt_le (by omega) (by omega)
          rw [e, Nat.mul_add_div hTpos, e1]
        rw [hceil] at h0
        generalize out_w / d.num_threads = z at h0 hdm hqle
        generalize out_w % d.num_threads = r at hr hdm hrl
        generalize d.num_threads * z = tz at hdm hqle
        rw [Nat.min_eq_left (by omega), Nat.min_eq_left (by omega)] at h0
        omega

/-- Witness of C16 (amended): worker 1 of 3. -/
theorem C16_rescale_ranges_witness :
    rescale_start (main_thread_data large_4096 gray_tiles 3 1) RESCALE_X = 682 ∧
    rescale_end (main_thread_data large_4096 gray_tiles 3 1) RESCALE_X = 1365 ∧
    rescale_end (main_thread_data large_4096 gray_tiles 3 1) RESCALE_X
      = rescale_start (main_thread_data large_4096 gray_tiles 3 2) RESCALE_X :=
  ⟨by decide, by decide,
    (C16_rescale_ranges (main_thread_data large_4096 gray_tiles 3 1) RESCALE_X
      (by decide) (by decide)).2.2.1⟩

set_option maxRecDepth 100000 in
/-- C17 (the claim fails as stated): when every tile file holds the 4 x 4
image `small_tile`, `init_contour_map` returns the table all the same, with
tile 0 of size 4 x 4; and the run of `main` with one worker on the all-white
16 x 16 image stamps that tile, so `update_image` is called with it: pixel 0
of the output is black, pixel 4 in the same block is still white. -/
theorem C17_tiles_not_validated :
    (init_contour_map true (fun _ => some small_tile) (fun _ => small_tile)).map
        (fun map => ((map 0).x, (map 0).y)) = some (4, 4) ∧
    (main (good_environment white_16 (fun _ => small_tile)) 4 1).exit_code = 0 ∧
    (main (good_environment white_16 (fun _ => small_tile)) 4 1).written.map
        (fun image => (image.data 0, image.data 4)) = some (black_pixel, white_pixel) := by
  refine ⟨?_, ?_, ?_⟩ <;> decide

/-- C17 (amended): `init_contour_map` does not look at the dimensions of the
tiles.  It fails when the allocation of the table fails; and when the
allocation succeeds and each of the 16 reads returns an image, it returns
those 16 images as read, whatever their width and height (the other entries
are what the allocation held).  That every tile is 8 x 8 is a precondition
that `update_image` relies on and that nothing checks. -/
theorem C17_tiles_as_read (read_tile : Nat → Option ppm_image)
    (tiles map : Nat → ppm_image)
    (hread : ∀ i, i < CONTOUR_CONFIG_COUNT → read_tile i = some (tiles i)) :
    init_contour_map false read_tile map = none ∧
    init_contour_map true read_tile map
      = some (fun k => if k < CONTOUR_CONFIG_COUNT then tiles k else map k) := by
  refine ⟨rfl, ?_⟩
  unfold init_contour_map
  rw [if_pos rfl]
  exact init_contour_map_loop read_tile tiles map CONTOUR_CONFIG_COUNT hread

/-- Witness of C17 (amended): every tile file holds `small_tile`. -/
theorem C17_tiles_as_read_witness :
    init_contour_map false (fun _ => some small_tile) (fun _ => black_16) = none ∧
    init_contour_map true (fun _ => some small_tile) (fun _ => black_16)
      = some (fun k => if k < CONTOUR_CONFIG_COUNT then (fun _ => small_tile) k
          else (fun _ => black_16) k) :=
  C17_tiles_as_read (fun _ => some small_tile) (fun _ => small_tile) (fun _ => black_16)
    (fun _ _ => rfl)

/-! ## The tracked grid and the access lists agree with the program -/

theorem for_loop_map {σ τ : Type} (f : σ → τ) (body : Nat → σ → σ) (body2 : Nat → τ → τ)
    (h : ∀ i s, f (body i s) = body2 i (f s)) (lo hi : Nat) (s : σ) :
    f (for_loop lo hi body s) = for_loop lo hi body2 (f s) := by
  unfold for_loop
  generalize List.range' lo (hi - lo) = l
  induction l generalizing s with
  | nil => rfl
  | cons a l ih =>
    simp only [List.foldl_cons]
    rw [ih (body a s), h a s]

theorem set_cell_tracked_some (grid : Grid) (i j v : Nat) :
    (fun a b => some (set_cell grid i j v a b))
      = set_cell_tracked (fun a b => some (grid a b)) i j v := by
  funext a b
  unfold set_cell set_cell_tracked
  split <;> rfl

/-- On a grid all of whose cells are written, the tracked grid builder
stores the same bytes as `build_grid`. -/
theorem build_grid_tracked_some (d : thread_data) (canvas : ppm_image) (grid : Grid) :
    build_grid_tracked d canvas (fun a b => some (grid a b))
      = fun a b => some (build_grid d canvas grid a b) := by
  unfold build_grid_tracked build_grid boundary_fill boundary_row boundary_column set_corner
    sample_grid
  simp only
  rw [for_loop_map (fun (g : Grid) => (fun a b => some (g a b) : tracked_grid)) _
    (fun j grid => set_cell_tracked grid d.p j
      (threshold (canvas.data ((canvas.x - 1) * canvas.y + j * d.step_y))))
    (fun j g => set_cell_tracked_some g _ _ _)]
  rw [for_loop_map (fun (g : Grid) => (fun a b => some (g a b) : tracked_grid)) _
    (fun i grid => set_cell_tracked grid i d.q
      (threshold (canvas.data (i * d.step_x * canvas.y + canvas.x - 1))))
    (fun i g => set_cell_tracked_some g _ _ _)]
  rw [set_cell_tracked_some]
  rw [for_loop_map (fun (g : Grid) => (fun a b => some (g a b) : tracked_grid)) _
    (fun i grid => for_loop 0 d.q (fun j grid =>
      set_cell_tracked grid i j
        (threshold (canvas.data (i * d.step_x * canvas.y + j * d.step_y)))) grid)
    (fun i g => for_loop_map (fun (g : Grid) => (fun a b => some (g a b) : tracked_grid)) _
      (fun j grid => set_cell_tracked grid i j
        (threshold (canvas.data (i * d.step_x * canvas.y + j * d.step_y))))
      (fun j g => set_cell_tracked_some g _ _ _) _ _ _)]

/-- C15 (evaluation at a failing input): on the all-black 16 x 16 image with
2 workers, worker 0 (rows `[0, 1)`) reads the cells `grid[1][0]` and
`grid[1][1]` in its march loop, and after its own grid builder has run on a
grid with no cell written these two cells are still unwritten: they belong to
the rows of worker 1, for which worker 0 does not wait. -/
theorem C15_worker_reads_unwritten_cells :
    (1, 0) ∈ march_grid_reads (main_thread_data black_16 gray_tiles 2 0) ∧
    (1, 1) ∈ march_grid_reads (main_thread_data black_16 gray_tiles 2 0) ∧
    build_grid_tracked (main_thread_data black_16 gray_tiles 2 0) black_16
      (fun _ _ => none) 1 0 = none ∧
    build_grid_tracked (main_thread_data black_16 gray_tiles 2 0) black_16
      (fun _ _ => none) 1 1 = none := by
  decide

theorem mem_loop_values (lo hi i : Nat) : i ∈ loop_values lo hi ↔ lo ≤ i ∧ i < hi := by
  unfold loop_values
  rw [List.mem_range'_1]
  omega

/-- A loop leaves a location alone when no iteration touches it. -/
theorem for_loop_frame {σ L V : Type} (read : σ → L → V) (Inv : σ → Prop)
    (body : Nat → σ → σ) (F : Nat → L → Prop) (lo : Nat) (s : σ) (hs : Inv s) :
    ∀ hi : Nat,
      (∀ i s, lo ≤ i → i < hi → Inv s → Inv (body i s)) →
      (∀ i s l, lo ≤ i → i < hi → Inv s → ¬ F i l → read (body i s) l = read s l) →
      Inv (for_loop lo hi body s) ∧
      ∀ l, (∀ i, lo ≤ i → i < hi → ¬ F i l) → read (for_loop lo hi body s) l = read s l := by
  intro hi
  induction hi with
  | zero =>
    intro _ _
    rw [for_loop_empty lo 0 body s (Nat.zero_le _)]
    exact ⟨hs, fun _ _ => rfl⟩
  | succ n ih =>
    intro hinv hframe
    by_cases hlo : lo ≤ n
    · obtain ⟨hI, hP⟩ := ih
        (fun i s h1 h2 => hinv i s h1 (Nat.lt_succ_of_lt h2))
        (fun i s l h1 h2 => hframe i s l h1 (Nat.lt_succ_of_lt h2))
      rw [for_loop_succ lo n body s hlo]
      refine ⟨hinv n _ hlo (Nat.lt_succ_self n) hI, fun l hnone => ?_⟩
      rw [hframe n _ l hlo (Nat.lt_succ_self n) hI (hnone n hlo (Nat.lt_succ_self n))]
      exact hP l (fun i h1 h2 => hnone i h1 (Nat.lt_succ_of_lt h2))
    · rw [for_loop_empty lo (n + 1) body s (by omega)]
      exact ⟨hs, fun _ _ => rfl⟩

/-- The function `update_image` changes the image only at the indices of
`update_image_writes`, whatever the size of the tile. -/
theorem update_image_frame (image t : ppm_image) (x0 y0 n : Nat)
    (hn : n ∉ update_image_writes image t x0 y0) :
    (update_image image t x0 y0).data n = image.data n := by
  have h := for_loop_frame (fun (img : ppm_image) (l : Nat) => img.data l)
    (fun img => img.y = image.y)
    (fun i img => for_loop 0 t.y (fun j img =>
      set_pixel img ((x0 + i) * img.y + y0 + j) (t.data (t.x * i + j))) img)
    (fun i l => ∃ j, j < t.y ∧ l = (x0 + i) * image.y + y0 + j)
    0 image rfl t.x
    (fun i s _ _ hI => by
      refine for_loop_invariant (fun (img : ppm_image) => img.y = image.y) _ ?_ _ _ _ hI
      intro j s2 hs2
      exact hs2)
    (fun i s l _ _ hI hF => by
      have h2 := for_loop_frame (fun (img : ppm_image) (l : Nat) => img.data l)
        (fun img => img.y = image.y)
        (fun j img => set_pixel img ((x0 + i) * img.y + y0 + j) (t.data (t.x * i + j)))
        (fun j l => l = (x0 + i) * image.y + y0 + j)
        0 s hI t.y
        (fun j s2 _ _ hI2 => hI2)
        (fun j s2 l _ _ hI2 hF2 => by
          simp only [set_pixel_data, hI2]
          rw [if_neg hF2])
      exact h2.2 l (fun j _ hj e => hF ⟨j, hj, e⟩))
  refine h.2 n (fun i _ hi hF => hn ?_)
  obtain ⟨j, hj, e⟩ := hF
  unfold update_image_writes
  rw [List.mem_flatMap]
  refine ⟨i, (mem_loop_values 0 t.x i).2 ⟨Nat.zero_le _, hi⟩, ?_⟩
  rw [List.mem_map]
  exact ⟨j, (mem_loop_values 0 t.y j).2 ⟨Nat.zero_le _, hj⟩, e.symm⟩

/-- The march loop changes the canvas only at the indices of `march_writes`,
whatever the tiles and the grid. -/
theorem march_frame (d : thread_data) (grid : Grid) (canvas : ppm_image) (n : Nat)
    (hn : n ∉ march_writes d grid canvas) :
    (march d grid canvas).data n = canvas.data n := by
  have hrow : ∀ i (s : ppm_image), s.y = canvas.y →
      (for_loop 0 d.q (fun j canvas =>
        update_image canvas (d.contour_map (config_index grid i j))
          (i * d.step_x) (j * d.step_y)) s).y = canvas.y ∧
      ∀ l, (∀ j, 0 ≤ j → j < d.q →
          ¬ l ∈ update_image_writes canvas (d.contour_map (config_index grid i j))
            (i * d.step_x) (j * d.step_y)) →
        (for_loop 0 d.q (fun j canvas =>
          update_image canvas (d.contour_map (config_index grid i j))
            (i * d.step_x) (j * d.step_y)) s).data l = s.data l := by
    intro i s hs
    exact for_loop_frame (fun (img : ppm_image) (l : Nat) => img.data l)
      (fun img => img.y = canvas.y)
      (fun j canvas => update_image canvas (d.contour_map (config_index grid i j))
        (i * d.step_x) (j * d.step_y))
      (fun j l => l ∈ update_image_writes canvas (d.contour_map (config_index grid i j))
        (i * d.step_x) (j * d.step_y))
      0 s hs d.q
      (fun j s2 _ _ hI2 => (update_image_dims s2 _ _ _).2.trans hI2)
      (fun j s2 l _ _ hI2 hF2 => by
        apply update_image_frame
        have e : update_image_writes s2 (d.contour_map (config_index grid i j))
            (i * d.step_x) (j * d.step_y)
          = update_image_writes canvas (d.contour_map (config_index grid i j))
            (i * d.step_x) (j * d.step_y) := by
          unfold update_image_writes
          rw [hI2]
        rw [e]
        exact hF2)
  have h := for_loop_frame (fun (img : ppm_image) (l : Nat) => img.data l)
    (fun img => img.y = canvas.y)
    (fun i canvas => for_loop 0 d.q (fun j canvas =>
      update_image canvas (d.contour_map (config_index grid i j))
        (i * d.step_x) (j * d.step_y)) canvas)
    (fun i l => ∃ j, j < d.q ∧
      l ∈ update_image_writes canvas (d.contour_map (config_index grid i j))
        (i * d.step_x) (j * d.step_y))
    (grid_start d) canvas rfl (grid_end d)
    (fun i s _ _ hI => (hrow i s hI).1)
    (fun i s l _ _ hI hF => (hrow i s hI).2 l (fun j _ hj hmem => hF ⟨j, hj, hmem⟩))
  refine h.2 n (fun i h1 h2 hF => hn ?_)
  obtain ⟨j, hj, hmem⟩ := hF
  unfold march_writes
  rw [List.mem_flatMap]
  refine ⟨i, (mem_loop_values _ _ i).2 ⟨h1, h2⟩, ?_⟩
  rw [List.mem_flatMap]
  exact ⟨j, (mem_loop_values 0 d.q j).2 ⟨Nat.zero_le _, hj⟩, hmem⟩

/-- The grid that a worker builds depends on the canvas only through the
pixels at the indices of `build_grid_reads`. -/
theorem build_grid_reads_only (d : thread_data) (c1 c2 : ppm_image) (grid : Grid)
    (hx : c1.x = c2.x) (hy : c1.y = c2.y)
    (hdata : ∀ n, n ∈ build_grid_reads d c1 → c1.data n = c2.data n) (a b : Nat) :
    build_grid d c1 grid a b = build_grid d c2 grid a b := by
  rw [build_grid_spec, build_grid_spec, ← hx, ← hy]
  have m1 : ∀ i j, grid_start d ≤ i → i < grid_end d → j < d.q →
      c1.data (i * d.step_x * c1.y + j * d.step_y)
        = c2.data (i * d.step_x * c1.y + j * d.step_y) := by
    intro i j h1 h2 h3
    apply hdata
    unfold build_grid_reads sample_grid_reads
    rw [List.mem_append, List.mem_append]
    refine Or.inl (Or.inl ?_)
    rw [List.mem_flatMap]
    refine ⟨i, (mem_loop_values _ _ i).2 ⟨h1, h2⟩, ?_⟩
    rw [List.mem_map]
    exact ⟨j, (mem_loop_values 0 d.q j).2 ⟨Nat.zero_le _, h3⟩, rfl⟩
  have m2 : ∀ i, i < d.p →
      c1.data (i * d.step_x * c1.y + c1.x - 1) = c2.data (i * d.step_x * c1.y + c1.x - 1) := by
    intro i h1
    apply hdata
    unfold build_grid_reads boundary_column_reads
    rw [List.mem_append, List.mem_append]
    refine Or.inl (Or.inr ?_)
    rw [List.mem_map]
    exact ⟨i, (mem_loop_values 0 d.p i).2 ⟨Nat.zero_le _, h1⟩, rfl⟩
  have m3 : ∀ j, j < d.q →
      c1.data ((c1.x - 1) * c1.y + j * d.step_y)
        = c2.data ((c1.x - 1) * c1.y + j * d.step_y) := by
    intro j h1
    apply hdata
    unfold build_grid_reads boundary_row_reads
    rw [List.mem_append]
    refine Or.inr ?_
    rw [List.mem_map]
    exact ⟨j, (mem_loop_values 0 d.q j).2 ⟨Nat.zero_le _, h1⟩, rfl⟩
  split
  · rename_i h
    rw [m3 b h.2]
  · split
    · rename_i h
      rw [m2 a h.1]
    · split
      · rfl
      · split
        · rename_i h
          rw [m1 a b h.1.1 h.1.2 h.2]
        · rfl

/-- C18: for a canvas of `x` rows of `y` pixels with `1 <= x <= 2048`,
`y <= 2048` and `x <= 8 * y` (hence `1 <= y`), the arguments set up by `main` for one
worker (`p = x / 8`, `q = y / 8`, step 8) and 8 x 8 tiles: every canvas index
read by the grid builder (interior fill, boundary column, boundary row) and
every canvas index written by `update_image` in the march loop is below
`x * y`, which is below `2^31`; every grid cell stored by the grid builder or
read by the march loop lies in `[0, p] x [0, q]`; every index into the tile
table is below 16 and every index into a tile is below 64. -/
theorem C18_index_safety (image : ppm_image) (contour_map : Nat → ppm_image) (grid0 : Grid)
    (hx1 : 1 ≤ image.x) (hx2 : image.x ≤ RESCALE_X)
    (hy2 : image.y ≤ RESCALE_Y) (hxy : image.x ≤ 8 * image.y)
    (htiles : ∀ k, k < CONTOUR_CONFIG_COUNT → (contour_map k).x = 8 ∧ (contour_map k).y = 8) :
    (∀ n, n ∈ build_grid_reads (main_thread_data image contour_map 1 0) image →
      n < image.x * image.y) ∧
    (∀ n, n ∈ march_writes (main_thread_data image contour_map 1 0)
        (build_grid (main_thread_data image contour_map 1 0) image grid0) image →
      n < image.x * image.y) ∧
    image.x * image.y < 2 ^ 31 ∧
    (∀ c, c ∈ build_grid_writes (main_thread_data image contour_map 1 0)
        ++ march_grid_reads (main_thread_data image contour_map 1 0) →
      c.1 ≤ image.x / 8 ∧ c.2 ≤ image.y / 8) ∧
    (∀ i j, i < image.x / 8 → j < image.y / 8 →
      config_index (build_grid (main_thread_data image contour_map 1 0) image grid0) i j
        < CONTOUR_CONFIG_COUNT) ∧
    (∀ n, n ∈ march_tile_reads (main_thread_data image contour_map 1 0)
        (build_grid (main_thread_data image contour_map 1 0) image grid0) →
      n < 64) := by
  generalize hd : main_thread_data image contour_map 1 0 = d
  have hp : d.p = image.x / 8 := by rw [← hd]; rfl
  have hq : d.q = image.y / 8 := by rw [← hd]; rfl
  have hsx : d.step_x = 8 := by rw [← hd]; rfl
  have hsy : d.step_y = 8 := by rw [← hd]; rfl
  have h0 : d.thread_id = 0 := by rw [← hd]; rfl
  have h1 : d.num_threads = 1 := by rw [← hd]; rfl
  have hcm : d.contour_map = contour_map := by rw [← hd]; rfl
  have hs : grid_start d = 0 := grid_start_single d h0
  have he : grid_end d = image.x / 8 := by rw [grid_end_single d h0 h1, hp]
  generalize hg : build_grid d image grid0 = grid
  have hbit : ∀ a b, a ≤ d.p → b ≤ d.q → grid a b ≤ 1 := by
    intro a b h2 h3
    rw [← hg]
    exact build_grid_single_le_one d image grid0 h0 h1 a b h2 h3
  have hidx : ∀ i j, i < image.x / 8 → j < image.y / 8 → config_index grid i j < 16 := by
    intro i j h2 h3
    rw [← hp] at h2
    rw [← hq] at h3
    exact (config_index_of_bits grid i j (hbit _ _ (by omega) (by omega))
      (hbit _ _ (by omega) (by omega)) (hbit _ _ (by omega) (by omega))
      (hbit _ _ (by omega) (by omega))).2
  -- a row of cells ends within the canvas
  have hrow : ∀ i a, i < image.x / 8 → a < 8 →
      (i * 8 + a) * image.y + image.y ≤ image.x * image.y := by
    intro i a hi ha
    have h2 : (i * 8 + a + 1) * image.y ≤ image.x * image.y :=
      Nat.mul_le_mul_right _ (by omega)
    rw [Nat.succ_mul] at h2
    exact h2
  have hlast : (image.x - 1) * image.y + image.y = image.x * image.y := by
    have h2 : (image.x - 1 + 1) * image.y = image.x * image.y := by
      rw [Nat.sub_add_cancel hx1]
    rw [Nat.succ_mul] at h2
    exact h2
  refine ⟨?_, ?_, ?_, ?_, hidx, ?_⟩
  · intro n hn
    unfold build_grid_reads sample_grid_reads boundary_column_reads boundary_row_reads at hn
    rw [List.mem_append, List.mem_append, List.mem_flatMap] at hn
    rcases hn with (⟨i, hi, hn⟩ | hn) | hn
    · rw [List.mem_map] at hn
      obtain ⟨j, hj, e⟩ := hn
      rw [mem_loop_values, he] at hi
      rw [mem_loop_values, hq] at hj
      have := hrow i 0 hi.2 (by omega)
      rw [hsx, hsy] at e
      rw [Nat.add_zero] at this
      omega
    · rw [List.mem_map] at hn
      obtain ⟨i, hi, e⟩ := hn
      rw [mem_loop_values, hp] at hi
      have := hrow i 7 hi.2 (by omega)
      rw [hsx] at e
      rw [Nat.add_mul] at this
      omega
    · rw [List.mem_map] at hn
      obtain ⟨j, hj, e⟩ := hn
      rw [mem_loop_values, hq] at hj
      rw [hsy] at e
      omega
  · intro n hn
    unfold march_writes at hn
    rw [List.mem_flatMap] at hn
    obtain ⟨i, hi, hn⟩ := hn
    rw [List.mem_flatMap] at hn
    obtain ⟨j, hj, hn⟩ := hn
    rw [mem_loop_values, he] at hi
    rw [mem_loop_values, hq] at hj
    unfold update_image_writes at hn
    rw [List.mem_flatMap] at hn
    obtain ⟨a, ha, hn⟩ := hn
    rw [List.mem_map] at hn
    obtain ⟨b, hb, e⟩ := hn
    have ht := htiles _ (hidx i j hi.2 hj.2)
    rw [hcm] at ha hb
    rw [mem_loop_values, ht.1] at ha
    rw [mem_loop_values, ht.2] at hb
    rw [hsx, hsy] at e
    have := hrow i a hi.2 ha.2
    omega
  · have h2 : image.x * image.y ≤ RESCALE_X * RESCALE_Y := Nat.mul_le_mul hx2 hy2
    have h3 : RESCALE_X * RESCALE_Y < 2 ^ 31 := by decide
    omega
  · intro c hc
    unfold build_grid_writes march_grid_reads at hc
    simp only [List.mem_append, List.mem_flatMap, List.mem_map, mem_loop_values,
      List.mem_singleton, List.mem_cons, List.not_mem_nil, or_false, hs, he, hp, hq] at hc
    rcases hc with (((⟨i, hi, j, hj, e⟩ | e) | ⟨i, hi, e⟩) | ⟨j, hj, e⟩) | ⟨i, hi, j, hj, e⟩
    · subst e
      exact ⟨by omega, by omega⟩
    · subst e
      exact ⟨Nat.le_refl _, Nat.le_refl _⟩
    · subst e
      exact ⟨by omega, Nat.le_refl _⟩
    · subst e
      exact ⟨Nat.le_refl _, by omega⟩
    · rcases e with e | e | e | e
      · subst e
        exact ⟨by omega, by omega⟩
      · subst e
        exact ⟨by omega, by omega⟩
      · subst e
        exact ⟨by omega, by omega⟩
      · subst e
        exact ⟨by omega, by omega⟩
  · intro n hn
    unfold march_tile_reads at hn
    rw [List.mem_flatMap] at hn
    obtain ⟨i, hi, hn⟩ := hn
    rw [List.mem_flatMap] at hn
    obtain ⟨j, hj, hn⟩ := hn
    rw [mem_loop_values, he] at hi
    rw [mem_loop_values, hq] at hj
    unfold update_image_reads at hn
    rw [List.mem_flatMap] at hn
    obtain ⟨a, ha, hn⟩ := hn
    rw [List.mem_map] at hn
    obtain ⟨b, hb, e⟩ := hn
    have ht := htiles _ (hidx i j hi.2 hj.2)
    rw [hcm] at ha hb e
    rw [mem_loop_values, ht.1] at ha
    rw [mem_loop_values, ht.2] at hb
    rw [ht.1] at e
    omega

/-- Witness of C18: the all-black 16 x 16 image with the gray tiles. -/
theorem C18_index_safety_witness :
    (∀ n, n ∈ build_grid_reads (main_thread_data black_16 gray_tiles 1 0) black_16 →
      n < black_16.x * black_16.y) ∧
    (∀ n, n ∈ march_writes (main_thread_data black_16 gray_tiles 1 0)
        (build_grid (main_thread_data black_16 gray_tiles 1 0) black_16 (fun _ _ => 0))
        black_16 →
      n < black_16.x * black_16.y) ∧
    black_16.x * black_16.y < 2 ^ 31 ∧
    (∀ c, c ∈ build_grid_writes (main_thread_data black_16 gray_tiles 1 0)
        ++ march_grid_reads (main_thread_data black_16 gray_tiles 1 0) →
      c.1 ≤ black_16.x / 8 ∧ c.2 ≤ black_16.y / 8) ∧
    (∀ i j, i < black_16.x / 8 → j < black_16.y / 8 →
      config_index (build_grid (main_thread_data black_16 gray_tiles 1 0) black_16
        (fun _ _ => 0)) i j < CONTOUR_CONFIG_COUNT) ∧
    (∀ n, n ∈ march_tile_reads (main_thread_data black_16 gray_tiles 1 0)
        (build_grid (main_thread_data black_16 gray_tiles 1 0) black_16 (fun _ _ => 0)) →
      n < 64) :=
  C18_index_safety black_16 gray_tiles (fun _ _ => 0) (by decide) (by decide) (by decide)
    (by decide) (fun _ _ => ⟨rfl, rfl⟩)

end MarchingSquares
